import Mathlib

/-!
# Verification of the storelist Selection Engine

Shallow embedding of `src/utils/strategyEngine.ts` (classes `StrategyEngine`
and `PerformanceAnalyzer`) together with the data model of `src/types/index.ts`.

Modelling conventions:
* TypeScript `number` is modelled by `ℚ`.  The engine only adds, divides and
  compares revenue values; the claims verified here do not depend on binary
  floating-point rounding.  Where the source multiplies by a decimal constant
  (`0.7`, `0.33`, …) the embedding uses the exact rational value; a comment at
  each site records the JS expression.
* A JS array is a `List`; `Array.prototype.slice(a, b)` is `jsSlice`,
  `sort` with a comparator is `List.mergeSort` with the corresponding total
  Boolean relation (both are stable sorts, hence produce the same list),
  spreads of `new Set(...)` are `jsSetDedup` (first occurrence kept, insertion
  order preserved, exactly like JS `Set` iteration order).
* A JS object used as a string-keyed map (`Record<string, T>`) is a
  `List (String × T)` whose keys appear in insertion order; `recordGet` models
  `obj[k] || dflt`, `recordAdd` models `obj[k] = (obj[k] || 0) + v`.
* JS object identity: the records handed to the engine are pairwise distinct
  objects, so reference equality on them coincides with structural equality;
  hypotheses `stores.Nodup` state exactly that the candidate array does not
  contain the same record twice.
* `averageRevenue` and `regionCoverage` are `Option ℚ`: `none` models the JS
  value `NaN` produced by `0 / 0`, `some q` an ordinary number.
-/

namespace StoreList

/-- The store record (`StoreData` in `src/types/index.ts`).  `prodSelect` is the
revenue/performance metric driving the strategies. -/
structure StoreData where
  naam : String
  crmId : String
  storeId : String
  stad : String
  straat : String
  nummer : String
  postcode : String
  kanaal : String
  type : String
  fieldSalesRegio : String
  klantgroep : String
  prodSelect : ℚ
  strategie : String
  storeSize : ℚ
deriving DecidableEq, Repr

/-- The closed union `SelectionStrategy` of `src/types/index.ts`. -/
inductive SelectionStrategy where
  | revenueFocus
  | geographicCoverage
  | growthOpportunities
  | portfolioBalance
  | marketPenetration
  | demographicTargeting
deriving DecidableEq, Repr

/-- `TargetConfig` of `src/types/index.ts`: the number of stores to select. -/
structure TargetConfig where
  total : Nat
deriving DecidableEq, Repr

/-- `RegionWeight` of `src/types/index.ts`. -/
structure RegionWeight where
  region : String
  weight : ℚ
deriving DecidableEq, Repr

/-- `StrategyConfiguration` of `src/types/index.ts`.  The engine threads this
value through every strategy but never reads it, so the `any`-typed
`parameters` values are modelled as strings. -/
structure StrategyConfiguration where
  strategy : SelectionStrategy
  columnMappings : List (String × String)
  parameters : List (String × String)
  regionWeights : List RegionWeight
deriving DecidableEq, Repr

/-- `performanceDistribution` component of `SelectionResult`. -/
structure PerformanceDistribution where
  high : Nat
  medium : Nat
  low : Nat
deriving DecidableEq, Repr

/-- `statistics` component of `SelectionResult`. -/
structure SelectionStatistics where
  totalStores : Nat
  uniqueRegions : Nat
  uniqueRetailers : Nat
  revenuePerRegion : List (String × ℚ)
deriving DecidableEq, Repr

/-- `SelectionResult` of `src/types/index.ts`.  `averageRevenue` and
`regionCoverage` are `Option ℚ`, with `none` standing for the JS `NaN`
produced by an unguarded `0 / 0`. -/
structure SelectionResult where
  selectedStores : List StoreData
  totalRevenue : ℚ
  averageRevenue : Option ℚ
  regionCoverage : Option ℚ
  performanceDistribution : PerformanceDistribution
  statistics : SelectionStatistics
deriving DecidableEq, Repr

/-! ## JS primitives -/

/-- `xs.slice(a, b)` for `0 ≤ a ≤ b` (the only shape the engine uses). -/
def jsSlice (l : List α) (a b : Nat) : List α :=
  (l.drop a).take (b - a)

/-- Auxiliary for `jsSetDedup`: drop elements already seen. -/
def jsSetDedupAux [DecidableEq α] (seen : List α) : List α → List α
  | [] => []
  | a :: l => if a ∈ seen then jsSetDedupAux seen l else a :: jsSetDedupAux (a :: seen) l

/-- `[...new Set(xs)]`: keep the first occurrence of every element, in order. -/
def jsSetDedup [DecidableEq α] (l : List α) : List α :=
  jsSetDedupAux [] l

/-- Comparator `(a, b) => b.prodSelect - a.prodSelect` (sort descending):
`a` may come before `b` iff the comparator is `≤ 0`, i.e. `b.prodSelect ≤ a.prodSelect`. -/
def storeDescLe (a b : StoreData) : Bool :=
  decide (b.prodSelect ≤ a.prodSelect)

/-- Comparator `(a, b) => a.prodSelect - b.prodSelect` (sort ascending). -/
def storeAscLe (a b : StoreData) : Bool :=
  decide (a.prodSelect ≤ b.prodSelect)

/-- `stores.sort((a, b) => b.prodSelect - a.prodSelect)` — JS `sort` is stable,
as is `List.mergeSort`, so the two agree on every input. -/
def sortStoresDesc (l : List StoreData) : List StoreData :=
  l.mergeSort storeDescLe

/-- `stores.sort((a, b) => a.prodSelect - b.prodSelect)`. -/
def sortStoresAsc (l : List StoreData) : List StoreData :=
  l.mergeSort storeAscLe

/-- `arr.reduce((best, current) => current.prodSelect > best.prodSelect ? current : best)`
on the non-empty array `b :: rest`. -/
def jsReduceBest (b : StoreData) (rest : List StoreData) : StoreData :=
  rest.foldl (fun best current =>
    if best.prodSelect < current.prodSelect then current else best) b

/-- `obj[k]`, defaulting to `dflt` when the key is absent (models both
`obj[k] || []` and a guarded `obj[k]` whose uses treat `undefined` like an
empty array). -/
def recordGet (m : List (String × β)) (k : String) (dflt : β) : β :=
  (((m.find? (fun p => p.1 == k)).map (fun p => p.2)).getD dflt)

/-- `obj[k] = (obj[k] || 0) + v` on a string-keyed JS object: an existing key
keeps its position, a new key is appended. -/
def recordAdd : List (String × ℚ) → String → ℚ → List (String × ℚ)
  | [], k, v => [(k, v)]
  | (k', v') :: rest, k, v =>
    if k' = k then (k', v' + v) :: rest else (k', v') :: recordAdd rest k v

/-- `Math.round(q)` (JS rounds half-way cases toward `+∞`). -/
def jsRound (q : ℚ) : ℤ :=
  ⌊q + 1 / 2⌋

/-- `Math.min(...xs)` on a non-empty spread (JS yields `Infinity` on an empty
one; the histogram claims only concern non-empty inputs, and the junk value `0`
below is never relied upon). -/
def jsMinList : List ℚ → ℚ
  | [] => 0
  | h :: t => t.foldl min h

/-- `Math.max(...xs)` on a non-empty spread. -/
def jsMaxList : List ℚ → ℚ
  | [] => 0
  | h :: t => t.foldl max h

/-! ## StrategyEngine -/

namespace StrategyEngine

/-- `groupStoresByRegion` (strategyEngine.ts:316-324): the `reduce` produces an
object whose keys are the regions in first-occurrence order and whose value at
`r` is the sublist of stores of region `r` in original order. -/
def groupStoresByRegion (stores : List StoreData) : List (String × List StoreData) :=
  (jsSetDedup (stores.map (fun s => s.fieldSalesRegio))).map
    (fun r => (r, stores.filter (fun s => decide (s.fieldSalesRegio = r))))

/-- `revenueMaximizationSelection` (strategyEngine.ts:64-68): sort descending by
`prodSelect`, take the first `targetConfig.total`. -/
def revenueMaximizationSelection (stores : List StoreData) (targetConfig : TargetConfig)
    (_config : StrategyConfiguration) : List StoreData :=
  (sortStoresDesc stores).take targetConfig.total

/-- Phase 1 of `geographicDistributionSelection` (strategyEngine.ts:82-91):
one best performer per region while slots remain. -/
def geoPhase1 (storesByRegion : List (String × List StoreData)) (target : Nat) :
    List String → List StoreData → List StoreData
  | [], selected => selected
  | region :: regions, selected =>
    match recordGet storesByRegion region [] with
    | [] => geoPhase1 storesByRegion target regions selected
    | b :: rest =>
      if selected.length < target then
        geoPhase1 storesByRegion target regions (selected ++ [jsReduceBest b rest])
      else
        geoPhase1 storesByRegion target regions selected

/-- One iteration body of the round-robin `while` loop
(strategyEngine.ts:109-114): look up the current region
(`regions[regionIndex % regions.length]`, `none` when out of range) and, when
it still has remaining stores, `shift()` its next-best one onto the
selection. -/
def geoStep (avail : String → List StoreData) (selected : List StoreData) :
    Option String → (String → List StoreData) × List StoreData
  | none => (avail, selected)
  | some region =>
    match avail region with
    | [] => (avail, selected)
    | s :: rest => (fun r => if r = region then rest else avail r, selected ++ [s])

/-- The `while` loop of `geographicDistributionSelection`
(strategyEngine.ts:107-120): round-robin over `regions`; after the body,
`regionIndex` is incremented and the loop breaks when it exceeds
`regions.length * 10`. -/
def geoRoundRobin (regions : List String) (target : Nat) :
    Nat → (String → List StoreData) → List StoreData → List StoreData
  | i, avail, selected =>
    if selected.length < target then
      let step := geoStep avail selected (regions.get? (i % regions.length))
      if regions.length * 10 < i + 1 then step.2
      else geoRoundRobin regions target (i + 1) step.1 step.2
    else selected
termination_by i _ _ => regions.length * 10 + 1 - i
decreasing_by omega

/-- `geographicDistributionSelection` (strategyEngine.ts:74-124). -/
def geographicDistributionSelection (stores : List StoreData) (targetConfig : TargetConfig)
    (_config : StrategyConfiguration) : List StoreData :=
  let target := targetConfig.total
  let regions := jsSetDedup (stores.map (fun s => s.fieldSalesRegio))
  let storesByRegion := groupStoresByRegion stores
  let selected1 := geoPhase1 storesByRegion target regions []
  let remainingSlots := target - selected1.length
  let selected2 :=
    if 0 < remainingSlots then
      let availableStores := stores.filter (fun s => !(decide (s ∈ selected1)))
      -- `groupStoresByRegion` over `availableStores`, each region sorted
      -- descending (strategyEngine.ts:97-104); absent keys behave like `[]`.
      let avail := fun r =>
        sortStoresDesc (availableStores.filter (fun s => decide (s.fieldSalesRegio = r)))
      geoRoundRobin regions target 0 avail selected1
    else selected1
  selected2.take target

/-- First pass of `growthPotentialSelection` (strategyEngine.ts:153-159):
one store per region, in pool order. -/
def growthPass1 (target : Nat) :
    List StoreData → List StoreData → List String → List StoreData × List String
  | [], selected, used => (selected, used)
  | s :: rest, selected, used =>
    if s.fieldSalesRegio ∉ used ∧ selected.length < target then
      growthPass1 target rest (selected ++ [s]) (used ++ [s.fieldSalesRegio])
    else
      growthPass1 target rest selected used

/-- Second pass of `growthPotentialSelection` (strategyEngine.ts:161-166):
fill remaining slots from the pool, skipping already-selected records. -/
def growthPass2 (target : Nat) : List StoreData → List StoreData → List StoreData
  | [], selected => selected
  | s :: rest, selected =>
    if s ∉ selected ∧ selected.length < target then
      growthPass2 target rest (selected ++ [s])
    else
      growthPass2 target rest selected

/-- `growthPotentialSelection` (strategyEngine.ts:130-169).  The slice bounds
`Math.floor(totalStores * 0.2)` and `Math.floor(totalStores * 0.7)` are the
exact rationals `2n/10` and `7n/10` floored. -/
def growthPotentialSelection (stores : List StoreData) (targetConfig : TargetConfig)
    (_config : StrategyConfiguration) : List StoreData :=
  let target := targetConfig.total
  let sortedStores := sortStoresAsc stores
  let totalStores := sortedStores.length
  let pool0 := jsSlice sortedStores (totalStores * 2 / 10) (totalStores * 7 / 10)
  let growthCandidates :=
    if pool0.length < target then
      pool0 ++ jsSlice sortedStores 0 (totalStores * 2 / 10)
    else pool0
  let pass1 := growthPass1 target growthCandidates [] []
  let selected := growthPass2 target growthCandidates pass1.1
  selected.take target

/-- Experimental phase 1 of `portfolioBalanceSelection`
(strategyEngine.ts:204-214): one best performer per under-represented region,
breaking once the experimental quota is reached. -/
def expPhase1 (finalRemaining : List StoreData) (experimentalCount : Nat) :
    List String → List StoreData → List StoreData
  | [], acc => acc
  | region :: regions, acc =>
    if experimentalCount ≤ acc.length then acc
    else
      match finalRemaining.filter (fun s => decide (s.fieldSalesRegio = region)) with
      | [] => expPhase1 finalRemaining experimentalCount regions acc
      | b :: rest =>
        expPhase1 finalRemaining experimentalCount regions (acc ++ [jsReduceBest b rest])

/-- `portfolioBalanceSelection` (strategyEngine.ts:175-226).
`Math.round(target * 0.7)` and `Math.round(target * 0.2)` are embedded as the
exact rationals rounded half-up: `(7t + 5) / 10` and `(2t + 5) / 10`. -/
def portfolioBalanceSelection (stores : List StoreData) (targetConfig : TargetConfig)
    (config : StrategyConfiguration) : List StoreData :=
  let target := targetConfig.total
  let coreCount := (target * 7 + 5) / 10
  let growthCount := (target * 2 + 5) / 10
  let experimentalCount := target - coreCount - growthCount
  let coreStores := geographicDistributionSelection stores ⟨coreCount⟩ config
  let selected1 := coreStores
  let remainingStores := stores.filter (fun s => !(decide (s ∈ selected1)))
  let growthStores := growthPotentialSelection remainingStores ⟨growthCount⟩ config
  let selected2 := selected1 ++ growthStores
  let finalRemaining := stores.filter (fun s => !(decide (s ∈ selected2)))
  let selected3 :=
    if 0 < finalRemaining.length ∧ 0 < experimentalCount then
      let regions := jsSetDedup (stores.map (fun s => s.fieldSalesRegio))
      let selectedRegions := selected2.map (fun s => s.fieldSalesRegio)
      let underrepresentedRegions := regions.filter (fun r => !(decide (r ∈ selectedRegions)))
      let exp1 := expPhase1 finalRemaining experimentalCount underrepresentedRegions []
      let remaining :=
        sortStoresAsc (finalRemaining.filter (fun s => !(decide (s ∈ exp1))))
      let experimentalStores := exp1 ++ remaining.take (experimentalCount - exp1.length)
      selected2 ++ experimentalStores
    else selected2
  selected3.take target

/-- One entry of the `regionDensity` array of `marketPenetrationSelection`
(strategyEngine.ts:237-243). -/
structure RegionDensity where
  region : String
  storeCount : Nat
  avgRevenue : ℚ
  stores : List StoreData
deriving DecidableEq, Repr

/-- Comparator of `regionDensity` (strategyEngine.ts:244-248): store count
descending, ties by average revenue descending; `a` may precede `b` iff the
comparator value is `≤ 0`. -/
def regionDensityLe (a b : RegionDensity) : Bool :=
  decide (b.storeCount < a.storeCount ∨
    (b.storeCount = a.storeCount ∧ b.avgRevenue ≤ a.avgRevenue))

/-- Selection loop of `marketPenetrationSelection` (strategyEngine.ts:253-267).
`storesLength` is the length of the full candidate list (`stores.length` in the
source); `Math.ceil(target * regionStores.length / stores.length)` is the exact
rational ceiling `(target * count + storesLength - 1) / storesLength`. -/
def marketLoop (target storesLength : Nat) :
    List RegionDensity → List StoreData → List StoreData
  | [], selected => selected
  | d :: rest, selected =>
    if target ≤ selected.length then selected
    else
      let remainingSlots := target - selected.length
      let storesToSelect :=
        max 1 (min remainingSlots
          ((target * d.stores.length + storesLength - 1) / storesLength))
      let topStores := (sortStoresDesc d.stores).take storesToSelect
      marketLoop target storesLength rest (selected ++ topStores)

/-- `marketPenetrationSelection` (strategyEngine.ts:232-270). -/
def marketPenetrationSelection (stores : List StoreData) (targetConfig : TargetConfig)
    (_config : StrategyConfiguration) : List StoreData :=
  let target := targetConfig.total
  let storesByRegion := groupStoresByRegion stores
  let regionDensity :=
    (storesByRegion.map (fun p =>
      ({ region := p.1, storeCount := p.2.length,
         avgRevenue := (p.2.map (fun s => s.prodSelect)).sum / (p.2.length : ℚ),
         stores := p.2 } : RegionDensity))).mergeSort StrategyEngine.regionDensityLe
  (marketLoop target stores.length regionDensity []).take target

/-- One entry of the `segmentPerformance` array of
`demographicTargetingSelection` (strategyEngine.ts:288-296); its `stores` list
is already sorted descending by `prodSelect`. -/
structure SegmentPerformance where
  segment : String
  storeCount : Nat
  avgRevenue : ℚ
  totalRevenue : ℚ
  stores : List StoreData
deriving DecidableEq, Repr

/-- Comparator of `segmentPerformance` (strategyEngine.ts:296): average revenue
descending. -/
def segmentLe (a b : SegmentPerformance) : Bool :=
  decide (b.avgRevenue ≤ a.avgRevenue)

/-- The demographic key `` `${store.klantgroep}-${store.kanaal}` ``
(strategyEngine.ts:281). -/
def demoKey (s : StoreData) : String :=
  s.klantgroep ++ "-" ++ s.kanaal

/-- Selection loop of `demographicTargetingSelection`
(strategyEngine.ts:301-308): `Math.ceil(segmentStores.length * 0.3)` is the
exact rational ceiling `(3 * size + 9) / 10`. -/
def demoLoop (target : Nat) : List SegmentPerformance → List StoreData → List StoreData
  | [], selected => selected
  | seg :: rest, selected =>
    if target ≤ selected.length then selected
    else
      let remainingSlots := target - selected.length
      let storesToSelect := min remainingSlots (max 1 ((seg.stores.length * 3 + 9) / 10))
      demoLoop target rest (selected ++ seg.stores.take storesToSelect)

/-- `demographicTargetingSelection` (strategyEngine.ts:276-311).  The
`storesByDemographic` reduce yields keys in first-occurrence order with the
stores of each segment in original order, exactly like `groupStoresByRegion`. -/
def demographicTargetingSelection (stores : List StoreData) (targetConfig : TargetConfig)
    (_config : StrategyConfiguration) : List StoreData :=
  let target := targetConfig.total
  let storesByDemographic :=
    (jsSetDedup (stores.map demoKey)).map
      (fun k => (k, stores.filter (fun s => decide (demoKey s = k))))
  let segmentPerformance :=
    (storesByDemographic.map (fun p =>
      ({ segment := p.1, storeCount := p.2.length,
         avgRevenue := (p.2.map (fun s => s.prodSelect)).sum / (p.2.length : ℚ),
         totalRevenue := (p.2.map (fun s => s.prodSelect)).sum,
         stores := sortStoresDesc p.2 } : SegmentPerformance))).mergeSort StrategyEngine.segmentLe
  (demoLoop target segmentPerformance []).take target

/-- The `switch` of `selectStores` (strategyEngine.ts:34-55).  The
`SelectionStrategy` union is closed, so the `default` branch (fall back to
revenue maximization) is unreachable in typed code. -/
def strategySelect (strategy : SelectionStrategy) (workingStores : List StoreData)
    (targetConfig : TargetConfig) (config : StrategyConfiguration) : List StoreData :=
  match strategy with
  | .revenueFocus => revenueMaximizationSelection workingStores targetConfig config
  | .geographicCoverage => geographicDistributionSelection workingStores targetConfig config
  | .growthOpportunities => growthPotentialSelection workingStores targetConfig config
  | .portfolioBalance => portfolioBalanceSelection workingStores targetConfig config
  | .marketPenetration => marketPenetrationSelection workingStores targetConfig config
  | .demographicTargeting => demographicTargetingSelection workingStores targetConfig config

/-- `store.naam.split(' ')[0]` (strategyEngine.ts:355). -/
def retailerOf (s : StoreData) : String :=
  (s.naam.splitOn " ").headD ""

/-- `generateResult` (strategyEngine.ts:329-370).
* `averageRevenue = totalRevenue / selectedStores.length` is unguarded in the
  source: with an empty selection it is the JS `0 / 0 = NaN`, modelled `none`.
* `regionCoverage` likewise divides by the number of distinct regions of the
  working set (`NaN` when that is `0`, which the dispatcher never reaches).
* The percentile indices `Math.floor(sortedRevenues.length * 0.33)` and
  `... * 0.66` are the exact rationals floored; `sortedRevenues[i]` on the
  empty array is `undefined` (modelled `Option`), and every JS comparison with
  `undefined` is `false`. -/
def generateResult (selectedStores : List StoreData) (allStores : List StoreData) :
    SelectionResult :=
  let totalRevenue := (selectedStores.map (fun s => s.prodSelect)).sum
  let averageRevenue : Option ℚ :=
    if selectedStores.length = 0 then none
    else some (totalRevenue / (selectedStores.length : ℚ))
  let uniqueRegions := jsSetDedup (selectedStores.map (fun s => s.fieldSalesRegio))
  let totalRegions := jsSetDedup (allStores.map (fun s => s.fieldSalesRegio))
  let regionCoverage : Option ℚ :=
    if totalRegions.length = 0 then none
    else some ((uniqueRegions.length : ℚ) / (totalRegions.length : ℚ))
  let revenues := selectedStores.map (fun s => s.prodSelect)
  let sortedRevenues := revenues.mergeSort (fun a b => decide (b ≤ a))
  let highThreshold : Option ℚ := sortedRevenues.get? (sortedRevenues.length * 33 / 100)
  let mediumThreshold : Option ℚ := sortedRevenues.get? (sortedRevenues.length * 66 / 100)
  let isHigh : StoreData → Bool := fun s =>
    match highThreshold with
    | some h => decide (h ≤ s.prodSelect)
    | none => false
  let isMedium : StoreData → Bool := fun s =>
    (match mediumThreshold with
      | some m => decide (m ≤ s.prodSelect)
      | none => false) &&
    (match highThreshold with
      | some h => decide (s.prodSelect < h)
      | none => false)
  let isLow : StoreData → Bool := fun s =>
    match mediumThreshold with
    | some m => decide (s.prodSelect < m)
    | none => false
  { selectedStores := selectedStores
    totalRevenue := totalRevenue
    averageRevenue := averageRevenue
    regionCoverage := regionCoverage
    performanceDistribution :=
      { high := selectedStores.countP isHigh
        medium := selectedStores.countP isMedium
        low := selectedStores.countP isLow }
    statistics :=
      { totalStores := selectedStores.length
        uniqueRegions := uniqueRegions.length
        uniqueRetailers := (jsSetDedup (selectedStores.map retailerOf)).length
        revenuePerRegion :=
          selectedStores.foldl (fun acc s => recordAdd acc s.fieldSalesRegio s.prodSelect) [] } }

/-- `createEmptyResult` (strategyEngine.ts:375-389). -/
def createEmptyResult : SelectionResult :=
  { selectedStores := []
    totalRevenue := 0
    averageRevenue := some 0
    regionCoverage := some 0
    performanceDistribution := { high := 0, medium := 0, low := 0 }
    statistics :=
      { totalStores := 0, uniqueRegions := 0, uniqueRetailers := 0, revenuePerRegion := [] } }

/-- `selectStores` (strategyEngine.ts:11-58).  The working set is
`filteredStores || stores`: any *provided* array is used, including the empty
one, because an empty JS array is truthy; only an absent (`undefined`)
argument falls back to `stores`. -/
def selectStores (stores : List StoreData) (strategy : SelectionStrategy)
    (targetConfig : TargetConfig) (filteredStores : Option (List StoreData) := none)
    (strategyConfig : Option StrategyConfiguration := none) : SelectionResult :=
  let workingStores := filteredStores.getD stores
  if workingStores.length = 0 then createEmptyResult
  else
    let config := strategyConfig.getD
      { strategy := strategy, columnMappings := [], parameters := [], regionWeights := [] }
    let selectedStores := strategySelect strategy workingStores targetConfig config
    generateResult selectedStores workingStores

/-- Net effect of one `selectStores` call on the *working* array, as seen by
the caller.  `Array.prototype.sort` mutates in place:
`revenueMaximizationSelection` sorts the working array descending
(strategyEngine.ts:66) and `growthPotentialSelection` sorts it ascending
(strategyEngine.ts:134).  The other four strategies sort only freshly created
arrays — the grouped lists built by `reduce`+`push`, or `filter`/`slice`/`map`
copies — so the working array itself is left untouched. -/
def workingStoresAfterSelect (strategy : SelectionStrategy) (stores : List StoreData) :
    List StoreData :=
  match strategy with
  | .revenueFocus => sortStoresDesc stores
  | .growthOpportunities => sortStoresAsc stores
  | _ => stores

/-- Net effect of one `selectStores` call on the caller's `stores` argument:
when `filteredStores` is provided (even empty) it, not `stores`, becomes the
working array, and when the working set is empty the engine returns before any
strategy runs. -/
def allStoresAfterSelect (stores : List StoreData) (strategy : SelectionStrategy)
    (filteredStores : Option (List StoreData)) : List StoreData :=
  match filteredStores with
  | some _ => stores
  | none =>
    if stores.length = 0 then stores
    else workingStoresAfterSelect strategy stores

end StrategyEngine

namespace PerformanceAnalyzer

/-- One bin of `PerformanceAnalyzer.generateHistogram`: the label
`` `€${Math.round(binMin/1000)}k - €${Math.round(binMax/1000)}k` `` is carried
as the pair of its two rounded numbers. -/
structure HistogramBin where
  range : ℤ × ℤ
  count : Nat
  stores : List StoreData
deriving DecidableEq, Repr

/-- `generateHistogram` (strategyEngine.ts:397-421): equal-width bins over
`[min, max]`; every bin is `[lo, hi)` except the last, which is `[lo, hi]`. -/
def generateHistogram (stores : List StoreData) (bins : Nat := 10) : List HistogramBin :=
  let revenues := stores.map (fun s => s.prodSelect)
  let min := jsMinList revenues
  let max := jsMaxList revenues
  let binSize := (max - min) / (bins : ℚ)
  (List.range bins).map (fun (i : Nat) =>
    let binMin := min + (i : ℚ) * binSize
    let binMax := min + ((i : ℚ) + 1) * binSize
    let binStores := stores.filter (fun s =>
      decide (binMin ≤ s.prodSelect) &&
        (if i = bins - 1 then decide (s.prodSelect ≤ binMax)
         else decide (s.prodSelect < binMax)))
    { range := (jsRound (binMin / 1000), jsRound (binMax / 1000))
      count := binStores.length
      stores := binStores })

end PerformanceAnalyzer

/-! ## Concrete fixtures used in witnesses and counterexamples -/

/-- A one-field-of-interest store record used as a concrete test input. -/
def testStore (naam region klantgroep kanaal : String) (v : ℚ) : StoreData :=
  { naam := naam, crmId := "", storeId := "", stad := "", straat := "", nummer := "",
    postcode := "", kanaal := kanaal, type := "", fieldSalesRegio := region,
    klantgroep := klantgroep, prodSelect := v, strategie := "", storeSize := 0 }

/-- Concrete store with performance value `100` (the record
`performanceValue: 100` of the histogram scenario). -/
def storeA : StoreData := testStore "Albert Heijn 1" "North" "A" "K" 100

/-- Concrete store with performance value `200`. -/
def storeB : StoreData := testStore "Jumbo 2" "South" "B" "K" 200

/-- The ten records of the example scenario: five in region `"North"` with
performance `[100,200,300,400,500]` followed by five in region `"South"` with
performance `[150,250,350,450,550]`, in that list order. -/
def exampleStores : List StoreData :=
  [testStore "N1" "North" "A" "K" 100, testStore "N2" "North" "A" "K" 200,
   testStore "N3" "North" "A" "K" 300, testStore "N4" "North" "A" "K" 400,
   testStore "N5" "North" "A" "K" 500, testStore "S1" "South" "A" "K" 150,
   testStore "S2" "South" "A" "K" 250, testStore "S3" "South" "A" "K" 350,
   testStore "S4" "South" "A" "K" 450, testStore "S5" "South" "A" "K" 550]

/-- Invariant carried through the round-robin loop: the selection is
duplicate-free and drawn from `stores`, and every region's remaining queue
consists of stores of that region, drawn from `stores`, not yet selected and
duplicate-free. -/
def GeoInv (stores : List StoreData) (avail : String → List StoreData)
    (sel : List StoreData) : Prop :=
  sel.Nodup ∧ (∀ s ∈ sel, s ∈ stores) ∧
    ∀ r, (avail r).Nodup ∧ ∀ x ∈ avail r, x ∈ stores ∧ x.fieldSalesRegio = r ∧ x ∉ sel


/-! ## Basic lemmas about the JS primitives -/

theorem mem_jsSetDedupAux [DecidableEq α] {x : α} :
    ∀ {seen l : List α}, x ∈ jsSetDedupAux seen l ↔ x ∈ l ∧ x ∉ seen := by
  intro seen l
  induction l generalizing seen with
  | nil => simp [jsSetDedupAux]
  | cons a l ih =>
    by_cases ha : a ∈ seen
    · rw [jsSetDedupAux, if_pos ha, ih]
      by_cases hxa : x = a
      · subst hxa; simp [ha]
      · simp [hxa]
    · rw [jsSetDedupAux, if_neg ha]
      by_cases hxa : x = a
      · subst hxa; simp [ha]
      · simp [List.mem_cons, hxa, ih]

theorem mem_jsSetDedup [DecidableEq α] {x : α} {l : List α} :
    x ∈ jsSetDedup l ↔ x ∈ l := by
  simp [jsSetDedup, mem_jsSetDedupAux]

theorem nodup_jsSetDedupAux [DecidableEq α] :
    ∀ (seen l : List α), (jsSetDedupAux seen l).Nodup := by
  intro seen l
  induction l generalizing seen with
  | nil => simp [jsSetDedupAux]
  | cons a l ih =>
    by_cases ha : a ∈ seen
    · rw [jsSetDedupAux, if_pos ha]
      exact ih seen
    · rw [jsSetDedupAux, if_neg ha]
      refine List.Nodup.cons ?_ (ih (a :: seen))
      intro hmem
      exact (mem_jsSetDedupAux.mp hmem).2 (List.mem_cons_self a seen)

theorem nodup_jsSetDedup [DecidableEq α] (l : List α) : (jsSetDedup l).Nodup :=
  nodup_jsSetDedupAux [] l

theorem sortStoresDesc_perm (l : List StoreData) : List.Perm (sortStoresDesc l) l :=
  List.mergeSort_perm l _

theorem sortStoresAsc_perm (l : List StoreData) : List.Perm (sortStoresAsc l) l :=
  List.mergeSort_perm l _

theorem mem_sortStoresDesc {s : StoreData} {l : List StoreData} :
    s ∈ sortStoresDesc l ↔ s ∈ l :=
  (sortStoresDesc_perm l).mem_iff

theorem mem_sortStoresAsc {s : StoreData} {l : List StoreData} :
    s ∈ sortStoresAsc l ↔ s ∈ l :=
  (sortStoresAsc_perm l).mem_iff

theorem nodup_sortStoresDesc {l : List StoreData} (h : l.Nodup) :
    (sortStoresDesc l).Nodup :=
  ((sortStoresDesc_perm l).nodup_iff).mpr h

theorem nodup_sortStoresAsc {l : List StoreData} (h : l.Nodup) :
    (sortStoresAsc l).Nodup :=
  ((sortStoresAsc_perm l).nodup_iff).mpr h

theorem jsReduceBest_mem (b : StoreData) (rest : List StoreData) :
    jsReduceBest b rest ∈ b :: rest := by
  unfold jsReduceBest
  induction rest generalizing b with
  | nil => simp
  | cons c rest ih =>
    simp only [List.foldl_cons]
    rcases List.mem_cons.mp
        (ih (if b.prodSelect < c.prodSelect then c else b)) with h | h
    · rw [h]
      by_cases hc : b.prodSelect < c.prodSelect
      · simp [hc]
      · simp [hc]
    · exact List.mem_cons_of_mem _ (List.mem_cons_of_mem _ h)

/-- A `Nodup` list contained in another list is at most as long. -/
theorem nodup_subset_length_le {l m : List StoreData} (hnd : l.Nodup)
    (hsub : ∀ x ∈ l, x ∈ m) : l.length ≤ m.length :=
  (hnd.subperm hsub).length_le

theorem find?_map_key {β : Type} (f : String → β) (k : String) :
    ∀ keys : List String,
      (keys.map (fun r => (r, f r))).find? (fun p => p.1 == k) =
        if k ∈ keys then some (k, f k) else none := by
  intro keys
  induction keys with
  | nil => simp
  | cons r keys ih =>
    by_cases hrk : r = k
    · subst hrk
      simp
    · have hbeq : (((r, f r) : String × β).1 == k) = false := by
        simpa using hrk
      simp only [List.map_cons, List.find?_cons, hbeq, ih]
      by_cases hk : k ∈ keys
      · rw [if_pos hk, if_pos (List.mem_cons_of_mem r hk)]
      · rw [if_neg hk, if_neg (fun hmem => by
          rcases List.mem_cons.mp hmem with h | h
          · exact hrk h.symm
          · exact hk h)]

theorem recordGet_groupStoresByRegion (stores : List StoreData) (r : String) :
    recordGet (StrategyEngine.groupStoresByRegion stores) r [] =
      stores.filter (fun s => decide (s.fieldSalesRegio = r)) := by
  unfold StrategyEngine.groupStoresByRegion recordGet
  rw [find?_map_key (fun r => stores.filter (fun s => decide (s.fieldSalesRegio = r))) r]
  by_cases hr : r ∈ jsSetDedup (stores.map (fun s => s.fieldSalesRegio))
  · simp [hr]
  · have hnil : stores.filter (fun s => decide (s.fieldSalesRegio = r)) = [] := by
      rw [List.filter_eq_nil_iff]
      intro s hs hreg
      exact hr (mem_jsSetDedup.mpr
        (List.mem_map.mpr ⟨s, hs, of_decide_eq_true hreg⟩))
    simp [hr, hnil]

/-- Three mutually exclusive, jointly exhaustive predicates count up to the
length of the list. -/
theorem countP_three_partition {l : List StoreData} {p q w : StoreData → Bool}
    (h : ∀ x ∈ l, (if p x then 1 else 0) + (if q x then 1 else 0) +
      (if w x then 1 else 0) = 1) :
    l.countP p + l.countP q + l.countP w = l.length := by
  induction l with
  | nil => simp
  | cons a l ih =>
    have ha := h a (List.mem_cons_self a l)
    have hl := ih (fun x hx => h x (List.mem_cons_of_mem a hx))
    simp only [List.countP_cons, List.length_cons]
    omega

theorem foldl_min_const : ∀ (t : List ℚ) (a : ℚ), (∀ x ∈ t, x = a) → t.foldl min a = a := by
  intro t
  induction t with
  | nil => intro a _; rfl
  | cons b t ih =>
    intro a hall
    have hb : b = a := hall b (List.mem_cons_self b t)
    subst hb
    rw [List.foldl_cons, min_self]
    exact ih b (fun x hx => hall x (List.mem_cons_of_mem b hx))

theorem foldl_max_const : ∀ (t : List ℚ) (a : ℚ), (∀ x ∈ t, x = a) → t.foldl max a = a := by
  intro t
  induction t with
  | nil => intro a _; rfl
  | cons b t ih =>
    intro a hall
    have hb : b = a := hall b (List.mem_cons_self b t)
    subst hb
    rw [List.foldl_cons, max_self]
    exact ih b (fun x hx => hall x (List.mem_cons_of_mem b hx))

theorem jsMinList_const {l : List ℚ} {c : ℚ} (hne : l ≠ [])
    (hall : ∀ x ∈ l, x = c) : jsMinList l = c := by
  cases l with
  | nil => exact absurd rfl hne
  | cons a t =>
    rw [jsMinList]
    have ha : a = c := hall a (List.mem_cons_self a t)
    subst ha
    exact foldl_min_const t a (fun x hx => hall x (List.mem_cons_of_mem a hx))

theorem jsMaxList_const {l : List ℚ} {c : ℚ} (hne : l ≠ [])
    (hall : ∀ x ∈ l, x = c) : jsMaxList l = c := by
  cases l with
  | nil => exact absurd rfl hne
  | cons a t =>
    rw [jsMaxList]
    have ha : a = c := hall a (List.mem_cons_self a t)
    subst ha
    exact foldl_max_const t a (fun x hx => hall x (List.mem_cons_of_mem a hx))

/-- The high/medium/low predicates of `generateResult` count every store
exactly once, provided the two thresholds (when the selection is non-empty)
satisfy `mediumThreshold ≤ highThreshold`. -/
theorem countP_high_med_low (l : List StoreData) (hOpt mOpt : Option ℚ)
    (hsome : l ≠ [] → ∃ h m, hOpt = some h ∧ mOpt = some m ∧ m ≤ h) :
    (l.countP fun s =>
        match hOpt with
        | some h => decide (h ≤ s.prodSelect)
        | none => false) +
      (l.countP fun s =>
        (match mOpt with
          | some m => decide (m ≤ s.prodSelect)
          | none => false) &&
        (match hOpt with
          | some h => decide (s.prodSelect < h)
          | none => false)) +
      (l.countP fun s =>
        match mOpt with
        | some m => decide (s.prodSelect < m)
        | none => false) = l.length := by
  cases l with
  | nil => simp
  | cons a t =>
    obtain ⟨h, m, rfl, rfl, hmh⟩ := hsome (by simp)
    refine countP_three_partition ?_
    intro x _
    rcases lt_or_le x.prodSelect m with h1 | h1
    · have h2 : x.prodSelect < h := lt_of_lt_of_le h1 hmh
      have h3 : ¬h ≤ x.prodSelect := not_le.mpr h2
      have h4 : ¬m ≤ x.prodSelect := not_le.mpr h1
      simp [h1, h3, h4]
    · rcases lt_or_le x.prodSelect h with h2 | h2
      · have h3 : ¬h ≤ x.prodSelect := not_le.mpr h2
        have h4 : ¬x.prodSelect < m := not_lt.mpr h1
        simp [h1, h2, h3, h4]
      · have h3 : ¬x.prodSelect < h := not_lt.mpr h2
        have h4 : ¬x.prodSelect < m := not_lt.mpr (le_trans hmh h2)
        simp [h2, h3, h4]

/-- The descending revenue sort of `generateResult` has its value at the 33rd
percentile index at least its value at the 66th percentile index. -/
theorem generateResult_thresholds (selected : List StoreData)
    (hne : selected ≠ []) :
    ∃ h m,
      ((selected.map (fun s => s.prodSelect)).mergeSort
          (fun a b => decide (b ≤ a))).get?
        (((selected.map (fun s => s.prodSelect)).mergeSort
          (fun a b => decide (b ≤ a))).length * 33 / 100) = some h ∧
      ((selected.map (fun s => s.prodSelect)).mergeSort
          (fun a b => decide (b ≤ a))).get?
        (((selected.map (fun s => s.prodSelect)).mergeSort
          (fun a b => decide (b ≤ a))).length * 66 / 100) = some m ∧
      m ≤ h := by
  set sorted := (selected.map (fun s => s.prodSelect)).mergeSort
    (fun a b => decide (b ≤ a)) with hsorted
  have hlen : sorted.length = selected.length := by
    rw [hsorted, List.length_mergeSort, List.length_map]
  have hn : 1 ≤ sorted.length := by
    rw [hlen]
    exact List.length_pos.mpr hne
  have hiH : sorted.length * 33 / 100 < sorted.length := by omega
  have hiM : sorted.length * 66 / 100 < sorted.length := by omega
  have hle : sorted.length * 33 / 100 ≤ sorted.length * 66 / 100 :=
    Nat.div_le_div_right (Nat.mul_le_mul_left _ (by omega))
  have hpair : sorted.Pairwise (fun a b => decide ((b : ℚ) ≤ a) = true) := by
    rw [hsorted]
    exact @List.sorted_mergeSort ℚ (fun a b => decide (b ≤ a))
      (fun a b c hab hbc =>
        decide_eq_true (le_trans (of_decide_eq_true hbc) (of_decide_eq_true hab)))
      (fun a b => by
        rcases le_total b a with h | h
        · exact Bool.or_eq_true_iff.mpr (Or.inl (decide_eq_true h))
        · exact Bool.or_eq_true_iff.mpr (Or.inr (decide_eq_true h)))
      (selected.map (fun s => s.prodSelect))
  refine ⟨sorted.get ⟨sorted.length * 33 / 100, hiH⟩,
    sorted.get ⟨sorted.length * 66 / 100, hiM⟩,
    List.get?_eq_get hiH, List.get?_eq_get hiM, ?_⟩
  rcases Nat.lt_or_ge (sorted.length * 33 / 100) (sorted.length * 66 / 100) with hlt | hge
  · have := (List.pairwise_iff_get.mp hpair)
      ⟨sorted.length * 33 / 100, hiH⟩ ⟨sorted.length * 66 / 100, hiM⟩ hlt
    simpa using this
  · have heq : sorted.length * 33 / 100 = sorted.length * 66 / 100 := le_antisymm hle hge
    simp [heq]

/-- The three tier counts of `generateResult` partition the selection. -/
theorem generateResult_partition (selected allStores : List StoreData) :
    (StrategyEngine.generateResult selected allStores).performanceDistribution.high +
        (StrategyEngine.generateResult selected allStores).performanceDistribution.medium +
        (StrategyEngine.generateResult selected allStores).performanceDistribution.low =
      (StrategyEngine.generateResult selected allStores).statistics.totalStores ∧
      (StrategyEngine.generateResult selected allStores).statistics.totalStores =
        (StrategyEngine.generateResult selected allStores).selectedStores.length := by
  constructor
  · simp only [StrategyEngine.generateResult]
    exact countP_high_med_low selected _ _ (fun hne => generateResult_thresholds selected hne)
  · simp only [StrategyEngine.generateResult]

/-! ## Geographic distribution lemmas -/

theorem geoPhase1_suffix (sbr : List (String × List StoreData)) (target : Nat) :
    ∀ (rs : List String) (sel : List StoreData),
      ∃ suf, StrategyEngine.geoPhase1 sbr target rs sel = sel ++ suf ∧
        (∀ s ∈ suf, ∃ r ∈ rs, s ∈ recordGet sbr r []) ∧
        (StrategyEngine.geoPhase1 sbr target rs sel).length ≤ sel.length + rs.length := by
  intro rs
  induction rs with
  | nil =>
    intro sel
    exact ⟨[], by simp [StrategyEngine.geoPhase1], by simp,
      by simp [StrategyEngine.geoPhase1]⟩
  | cons region rs ih =>
    intro sel
    cases hget : recordGet sbr region [] with
    | nil =>
      obtain ⟨suf, heq, hmem, hlen⟩ := ih sel
      refine ⟨suf, ?_, ?_, ?_⟩
      · simp only [StrategyEngine.geoPhase1, hget]
        exact heq
      · intro s hs
        obtain ⟨r, hr, hsr⟩ := hmem s hs
        exact ⟨r, List.mem_cons_of_mem region hr, hsr⟩
      · simp only [StrategyEngine.geoPhase1, hget, List.length_cons]
        omega
    | cons b rest =>
      by_cases hsel : sel.length < target
      · obtain ⟨suf, heq, hmem, hlen⟩ := ih (sel ++ [jsReduceBest b rest])
        refine ⟨jsReduceBest b rest :: suf, ?_, ?_, ?_⟩
        · simp only [StrategyEngine.geoPhase1, hget, if_pos hsel]
          rw [heq, List.append_assoc]
          rfl
        · intro s hs
          rcases List.mem_cons.mp hs with rfl | hs
          · exact ⟨region, List.mem_cons_self region rs,
              hget ▸ jsReduceBest_mem b rest⟩
          · obtain ⟨r, hr, hsr⟩ := hmem s hs
            exact ⟨r, List.mem_cons_of_mem region hr, hsr⟩
        · simp only [StrategyEngine.geoPhase1, hget, if_pos hsel, List.length_cons]
          simp only [List.length_append, List.length_cons, List.length_nil] at hlen
          omega
      · obtain ⟨suf, heq, hmem, hlen⟩ := ih sel
        refine ⟨suf, ?_, ?_, ?_⟩
        · simp only [StrategyEngine.geoPhase1, hget, if_neg hsel]
          exact heq
        · intro s hs
          obtain ⟨r, hr, hsr⟩ := hmem s hs
          exact ⟨r, List.mem_cons_of_mem region hr, hsr⟩
        · simp only [StrategyEngine.geoPhase1, hget, if_neg hsel, List.length_cons]
          omega

theorem geoPhase1_nodup (sbr : List (String × List StoreData)) (target : Nat)
    (hreg : ∀ r, ∀ x ∈ recordGet sbr r [], x.fieldSalesRegio = r) :
    ∀ (rs : List String) (sel : List StoreData), rs.Nodup → sel.Nodup →
      (∀ r ∈ rs, ∀ s ∈ sel, s.fieldSalesRegio ≠ r) →
      (StrategyEngine.geoPhase1 sbr target rs sel).Nodup := by
  intro rs
  induction rs with
  | nil =>
    intro sel _ hsel _
    simpa [StrategyEngine.geoPhase1] using hsel
  | cons region rs ih =>
    intro sel hnd hsel hdisj
    cases hget : recordGet sbr region [] with
    | nil =>
      simp only [StrategyEngine.geoPhase1, hget]
      exact ih sel (List.Nodup.of_cons hnd) hsel
        (fun r hr s hs => hdisj r (List.mem_cons_of_mem region hr) s hs)
    | cons b rest =>
      by_cases hslen : sel.length < target
      · simp only [StrategyEngine.geoPhase1, hget, if_pos hslen]
        have hbest : jsReduceBest b rest ∈ recordGet sbr region [] := by
          rw [hget]; exact jsReduceBest_mem b rest
        have hbreg : (jsReduceBest b rest).fieldSalesRegio = region :=
          hreg region _ hbest
        have hnotin : jsReduceBest b rest ∉ sel := fun hmem =>
          hdisj region (List.mem_cons_self region rs) _ hmem hbreg
        have hsel' : (sel ++ [jsReduceBest b rest]).Nodup := by
          rw [List.nodup_append]
          exact ⟨hsel, List.nodup_singleton _,
            fun a ha hb => hnotin (by rwa [List.mem_singleton.mp hb] at ha)⟩
        refine ih (sel ++ [jsReduceBest b rest]) (List.Nodup.of_cons hnd) hsel' ?_
        intro r hr s hs hfr
        rcases List.mem_append.mp hs with hs | hs
        · exact hdisj r (List.mem_cons_of_mem region hr) s hs hfr
        · rw [List.mem_singleton.mp hs] at hfr
          rw [hbreg] at hfr
          exact (List.nodup_cons.mp hnd).1 (hfr ▸ hr)
      · simp only [StrategyEngine.geoPhase1, hget, if_neg hslen]
        exact ih sel (List.Nodup.of_cons hnd) hsel
          (fun r hr s hs => hdisj r (List.mem_cons_of_mem region hr) s hs)

theorem geoPhase1_coverage (sbr : List (String × List StoreData)) (target : Nat)
    (hreg : ∀ r, ∀ x ∈ recordGet sbr r [], x.fieldSalesRegio = r) :
    ∀ (rs : List String) (sel : List StoreData),
      sel.length + rs.length ≤ target →
      ∀ r ∈ rs, recordGet sbr r [] ≠ [] →
        ∃ s ∈ StrategyEngine.geoPhase1 sbr target rs sel, s.fieldSalesRegio = r := by
  intro rs
  induction rs with
  | nil =>
    intro sel _ r hr
    exact absurd hr (List.not_mem_nil r)
  | cons region rs ih =>
    intro sel hlen r hr hne
    cases hget : recordGet sbr region [] with
    | nil =>
      rcases List.mem_cons.mp hr with rfl | hr
      · exact absurd hget hne
      · simp only [StrategyEngine.geoPhase1, hget]
        refine ih sel ?_ r hr hne
        simp only [List.length_cons] at hlen
        omega
    | cons b rest =>
      have hslen : sel.length < target := by
        simp only [List.length_cons] at hlen
        omega
      simp only [StrategyEngine.geoPhase1, hget, if_pos hslen]
      rcases List.mem_cons.mp hr with rfl | hr
      · obtain ⟨suf, heq, _, _⟩ := geoPhase1_suffix sbr target rs
          (sel ++ [jsReduceBest b rest])
        refine ⟨jsReduceBest b rest, ?_, ?_⟩
        · rw [heq]
          exact List.mem_append_left suf
            (List.mem_append_right sel (List.mem_singleton_self _))
        · exact hreg r _ (by rw [hget]; exact jsReduceBest_mem b rest)
      · refine ih (sel ++ [jsReduceBest b rest]) ?_ r hr hne
        simp only [List.length_append, List.length_cons, List.length_nil] at hlen ⊢
        omega

theorem geoStep_suffix (avail : String → List StoreData) (sel : List StoreData)
    (o : Option String) : ∃ suf, (StrategyEngine.geoStep avail sel o).2 = sel ++ suf := by
  cases o with
  | none => exact ⟨[], by simp [StrategyEngine.geoStep]⟩
  | some region =>
    cases hget : avail region with
    | nil => exact ⟨[], by simp [StrategyEngine.geoStep, hget]⟩
    | cons s rest => exact ⟨[s], by simp [StrategyEngine.geoStep, hget]⟩

theorem geoStep_inv (stores : List StoreData) (avail : String → List StoreData)
    (sel : List StoreData) (o : Option String) (h : GeoInv stores avail sel) :
    GeoInv stores (StrategyEngine.geoStep avail sel o).1
      (StrategyEngine.geoStep avail sel o).2 := by
  obtain ⟨hsel, hsub, hav⟩ := h
  cases o with
  | none => exact ⟨hsel, hsub, hav⟩
  | some region =>
    cases hget : avail region with
    | nil =>
      simp only [StrategyEngine.geoStep, hget]
      exact ⟨hsel, hsub, hav⟩
    | cons s rest =>
      obtain ⟨hndr, hxr⟩ := hav region
      rw [hget] at hndr hxr
      have hs := hxr s (List.mem_cons_self s rest)
      have hsel2 : (sel ++ [s]).Nodup := by
        rw [List.nodup_append]
        exact ⟨hsel, List.nodup_singleton _,
          fun a ha hb => hs.2.2 (by rwa [List.mem_singleton.mp hb] at ha)⟩
      have hsub2 : ∀ x ∈ sel ++ [s], x ∈ stores := by
        intro x hx
        rcases List.mem_append.mp hx with hx | hx
        · exact hsub x hx
        · rw [List.mem_singleton.mp hx]
          exact hs.1
      have hav2 : ∀ r, (if r = region then rest else avail r).Nodup ∧
          ∀ x ∈ (if r = region then rest else avail r),
            x ∈ stores ∧ x.fieldSalesRegio = r ∧ x ∉ sel ++ [s] := by
        intro r
        by_cases hrr : r = region
        · subst hrr
          rw [if_pos rfl]
          refine ⟨(List.nodup_cons.mp hndr).2, ?_⟩
          intro x hx
          have hxm := hxr x (List.mem_cons_of_mem s hx)
          refine ⟨hxm.1, hxm.2.1, ?_⟩
          intro hmem
          rcases List.mem_append.mp hmem with hm | hm
          · exact hxm.2.2 hm
          · rw [List.mem_singleton.mp hm] at hx
            exact (List.nodup_cons.mp hndr).1 hx
        · rw [if_neg hrr]
          obtain ⟨hnd2, hx2⟩ := hav r
          refine ⟨hnd2, ?_⟩
          intro x hx
          have hxm := hx2 x hx
          refine ⟨hxm.1, hxm.2.1, ?_⟩
          intro hmem
          rcases List.mem_append.mp hmem with hm | hm
          · exact hxm.2.2 hm
          · rw [List.mem_singleton.mp hm] at hxm
            exact hrr (hxm.2.1 ▸ hs.2.1 ▸ rfl)
      simp only [StrategyEngine.geoStep, hget]
      exact ⟨hsel2, hsub2, hav2⟩

theorem geoRoundRobin_spec (stores : List StoreData) (regions : List String)
    (target : Nat) :
    ∀ (n i : Nat) (avail : String → List StoreData) (sel : List StoreData),
      regions.length * 10 + 1 - i ≤ n →
      GeoInv stores avail sel →
      ((StrategyEngine.geoRoundRobin regions target i avail sel).Nodup ∧
        (∀ s ∈ StrategyEngine.geoRoundRobin regions target i avail sel, s ∈ stores)) ∧
        ∃ suf, StrategyEngine.geoRoundRobin regions target i avail sel = sel ++ suf := by
  intro n
  induction n with
  | zero =>
    intro i avail sel hn hinv
    have hbrk : regions.length * 10 < i + 1 := by omega
    rw [StrategyEngine.geoRoundRobin]
    by_cases hlt : sel.length < target
    · rw [if_pos hlt, if_pos hbrk]
      have hinv' := geoStep_inv stores avail sel
        (regions.get? (i % regions.length)) hinv
      exact ⟨⟨hinv'.1, hinv'.2.1⟩,
        geoStep_suffix avail sel (regions.get? (i % regions.length))⟩
    · rw [if_neg hlt]
      exact ⟨⟨hinv.1, hinv.2.1⟩, [], (List.append_nil sel).symm⟩
  | succ n ih =>
    intro i avail sel hn hinv
    rw [StrategyEngine.geoRoundRobin]
    by_cases hlt : sel.length < target
    · rw [if_pos hlt]
      have hinv' := geoStep_inv stores avail sel
        (regions.get? (i % regions.length)) hinv
      obtain ⟨suf1, hsuf1⟩ := geoStep_suffix avail sel (regions.get? (i % regions.length))
      by_cases hbrk : regions.length * 10 < i + 1
      · rw [if_pos hbrk]
        exact ⟨⟨hinv'.1, hinv'.2.1⟩, suf1, hsuf1⟩
      · rw [if_neg hbrk]
        obtain ⟨hres, suf2, hsuf2⟩ := ih (i + 1) _ _ (by omega) hinv'
        refine ⟨hres, suf1 ++ suf2, ?_⟩
        rw [hsuf2, hsuf1, List.append_assoc]
    · rw [if_neg hlt]
      exact ⟨⟨hinv.1, hinv.2.1⟩, [], (List.append_nil sel).symm⟩

theorem geoRoundRobin_suffix (regions : List String) (target : Nat) :
    ∀ (n i : Nat) (avail : String → List StoreData) (sel : List StoreData),
      regions.length * 10 + 1 - i ≤ n →
      ∃ suf, StrategyEngine.geoRoundRobin regions target i avail sel = sel ++ suf := by
  intro n
  induction n with
  | zero =>
    intro i avail sel hn
    have hbrk : regions.length * 10 < i + 1 := by omega
    rw [StrategyEngine.geoRoundRobin]
    by_cases hlt : sel.length < target
    · rw [if_pos hlt, if_pos hbrk]
      exact geoStep_suffix avail sel (regions.get? (i % regions.length))
    · rw [if_neg hlt]
      exact ⟨[], (List.append_nil sel).symm⟩
  | succ n ih =>
    intro i avail sel hn
    rw [StrategyEngine.geoRoundRobin]
    by_cases hlt : sel.length < target
    · rw [if_pos hlt]
      obtain ⟨suf1, hsuf1⟩ := geoStep_suffix avail sel (regions.get? (i % regions.length))
      by_cases hbrk : regions.length * 10 < i + 1
      · rw [if_pos hbrk]
        exact ⟨suf1, hsuf1⟩
      · rw [if_neg hbrk]
        obtain ⟨suf2, hsuf2⟩ := ih (i + 1) _ _ (by omega)
        refine ⟨suf1 ++ suf2, ?_⟩
        rw [hsuf2, hsuf1, List.append_assoc]
    · rw [if_neg hlt]
      exact ⟨[], (List.append_nil sel).symm⟩

theorem recordGet_region (stores : List StoreData) :
    ∀ r, ∀ x ∈ recordGet (StrategyEngine.groupStoresByRegion stores) r [],
      x.fieldSalesRegio = r := by
  intro r x hx
  rw [recordGet_groupStoresByRegion] at hx
  exact of_decide_eq_true (List.mem_filter.mp hx).2

theorem recordGet_subset (stores : List StoreData) :
    ∀ r, ∀ x ∈ recordGet (StrategyEngine.groupStoresByRegion stores) r [],
      x ∈ stores := by
  intro r x hx
  rw [recordGet_groupStoresByRegion] at hx
  exact (List.mem_filter.mp hx).1

/-- The geographic strategy returns a duplicate-free sublist-as-a-set of its
candidates. -/
theorem geographicDistributionSelection_nodup_subset (stores : List StoreData)
    (targetConfig : TargetConfig) (config : StrategyConfiguration)
    (hnd : stores.Nodup) :
    (StrategyEngine.geographicDistributionSelection stores targetConfig config).Nodup ∧
      ∀ s ∈ StrategyEngine.geographicDistributionSelection stores targetConfig config,
        s ∈ stores := by
  simp only [StrategyEngine.geographicDistributionSelection]
  set regions := jsSetDedup (stores.map (fun s => s.fieldSalesRegio)) with hregions
  set sbr := StrategyEngine.groupStoresByRegion stores with hsbr
  set sel1 := StrategyEngine.geoPhase1 sbr targetConfig.total regions [] with hsel1
  have hreg := recordGet_region stores
  have hnd1 : sel1.Nodup := by
    rw [hsel1, hsbr]
    exact geoPhase1_nodup _ _ (recordGet_region stores) regions []
      (nodup_jsSetDedup _) List.nodup_nil
      (fun r _ s hs => absurd hs (List.not_mem_nil s))
  have hsub1 : ∀ s ∈ sel1, s ∈ stores := by
    obtain ⟨suf, heq, hmem, _⟩ :=
      geoPhase1_suffix sbr targetConfig.total regions []
    intro s hs
    rw [hsel1, heq, List.nil_append] at hs
    obtain ⟨r, _, hsr⟩ := hmem s hs
    rw [hsbr] at hsr
    exact recordGet_subset stores r s hsr
  have hbranch :
      (if 0 < targetConfig.total - sel1.length then
          StrategyEngine.geoRoundRobin regions targetConfig.total 0
            (fun r => sortStoresDesc
              ((stores.filter (fun s => !(decide (s ∈ sel1)))).filter
                (fun s => decide (s.fieldSalesRegio = r)))) sel1
        else sel1).Nodup ∧
      (∀ s ∈ (if 0 < targetConfig.total - sel1.length then
          StrategyEngine.geoRoundRobin regions targetConfig.total 0
            (fun r => sortStoresDesc
              ((stores.filter (fun s => !(decide (s ∈ sel1)))).filter
                (fun s => decide (s.fieldSalesRegio = r)))) sel1
        else sel1), s ∈ stores) := by
    by_cases h0 : 0 < targetConfig.total - sel1.length
    · rw [if_pos h0]
      have hinv : GeoInv stores
          (fun r => sortStoresDesc
            ((stores.filter (fun s => !(decide (s ∈ sel1)))).filter
              (fun s => decide (s.fieldSalesRegio = r)))) sel1 := by
        refine ⟨hnd1, hsub1, ?_⟩
        intro r
        constructor
        · exact nodup_sortStoresDesc ((hnd.filter _).filter _)
        · intro x hx
          rw [mem_sortStoresDesc] at hx
          obtain ⟨hx1, hx2⟩ := List.mem_filter.mp hx
          obtain ⟨hx3, hx4⟩ := List.mem_filter.mp hx1
          refine ⟨hx3, of_decide_eq_true hx2, ?_⟩
          intro hmem
          rw [Bool.not_eq_eq_eq_not, Bool.not_true, decide_eq_false_iff_not] at hx4
          exact hx4 hmem
      have hspec := geoRoundRobin_spec stores regions targetConfig.total
        (regions.length * 10 + 1) 0 _ sel1 (by omega) hinv
      exact ⟨hspec.1.1, hspec.1.2⟩
    · rw [if_neg h0]
      exact ⟨hnd1, hsub1⟩
  refine ⟨?_, ?_⟩
  · exact List.Nodup.sublist (List.take_sublist _ _) hbranch.1
  · intro s hs
    exact hbranch.2 s (List.mem_of_mem_take hs)

/-- C7: if the number of distinct regions among the candidates is at most
`targetCount`, the Geographic Coverage selection contains at least one record
from every region present in the candidates (phase 1 picks each region's best
store before any slot can run out, and the final truncation keeps the whole
phase-1 prefix). -/
theorem claim7_region_floor (stores : List StoreData) (targetConfig : TargetConfig)
    (config : StrategyConfiguration) (hne : stores ≠ [])
    (hcard : (jsSetDedup (stores.map (fun s => s.fieldSalesRegio))).length ≤
      targetConfig.total) :
    ∀ r ∈ stores.map (fun s => s.fieldSalesRegio),
      ∃ s ∈ StrategyEngine.geographicDistributionSelection stores targetConfig config,
        s.fieldSalesRegio = r := by
  intro r hr
  have hrreg : r ∈ jsSetDedup (stores.map (fun s => s.fieldSalesRegio)) :=
    mem_jsSetDedup.mpr hr
  simp only [StrategyEngine.geographicDistributionSelection]
  set regions := jsSetDedup (stores.map (fun s => s.fieldSalesRegio)) with hregions
  set sbr := StrategyEngine.groupStoresByRegion stores with hsbr
  set sel1 := StrategyEngine.geoPhase1 sbr targetConfig.total regions [] with hsel1
  have hgetne : recordGet sbr r [] ≠ [] := by
    rw [hsbr, recordGet_groupStoresByRegion]
    obtain ⟨s, hs, hsr⟩ := List.mem_map.mp hr
    exact List.ne_nil_of_mem (List.mem_filter.mpr ⟨hs, decide_eq_true hsr⟩)
  obtain ⟨s, hssel, hsr⟩ :=
    geoPhase1_coverage sbr targetConfig.total
      (by rw [hsbr]; exact recordGet_region stores) regions []
      (by simpa using hcard) r hrreg hgetne
  rw [← hsel1] at hssel
  have hlen1 : sel1.length ≤ targetConfig.total := by
    obtain ⟨_, _, _, hlen⟩ := geoPhase1_suffix sbr targetConfig.total regions []
    calc sel1.length ≤ ([] : List StoreData).length + regions.length := by
          rw [hsel1]; exact hlen
      _ ≤ targetConfig.total := by simpa using hcard
  have hsuffix : ∃ suf,
      (if 0 < targetConfig.total - sel1.length then
          StrategyEngine.geoRoundRobin regions targetConfig.total 0
            (fun r => sortStoresDesc
              ((stores.filter (fun s => !(decide (s ∈ sel1)))).filter
                (fun s => decide (s.fieldSalesRegio = r)))) sel1
        else sel1) = sel1 ++ suf := by
    by_cases h0 : 0 < targetConfig.total - sel1.length
    · rw [if_pos h0]
      exact geoRoundRobin_suffix regions targetConfig.total
        (regions.length * 10 + 1) 0 _ sel1 (by omega)
    · rw [if_neg h0]
      exact ⟨[], (List.append_nil sel1).symm⟩
  obtain ⟨suf, hsuf⟩ := hsuffix
  refine ⟨s, ?_, hsr⟩
  rw [hsuf, List.take_append_eq_append_take,
    List.take_of_length_le hlen1]
  exact List.mem_append_left _ hssel

unseal Rat.add Rat.sub Rat.mul Rat.inv Rat.ofScientific Nat.gcd in
/-- Witness for C7: the hypotheses hold and the theorem applies at
`stores = [storeA, storeB]` (regions North and South), `targetCount = 2`. -/
theorem claim7_region_floor_witness :
    (([storeA, storeB] : List StoreData) ≠ [] ∧
        (jsSetDedup (([storeA, storeB] : List StoreData).map
          (fun s => s.fieldSalesRegio))).length ≤ 2) ∧
      ∀ r ∈ ([storeA, storeB] : List StoreData).map (fun s => s.fieldSalesRegio),
        ∃ s ∈ StrategyEngine.geographicDistributionSelection [storeA, storeB] ⟨2⟩
            ⟨.geographicCoverage, [], [], []⟩,
          s.fieldSalesRegio = r :=
  ⟨⟨by decide, by decide⟩,
    claim7_region_floor [storeA, storeB] ⟨2⟩ ⟨.geographicCoverage, [], [], []⟩
      (by decide) (by decide)⟩

/-! ## Growth potential lemmas -/

theorem growthPass1_spec (target : Nat) :
    ∀ (pool sel : List StoreData) (used : List String),
      sel.Nodup → (∀ s ∈ sel, s.fieldSalesRegio ∈ used) →
      ((StrategyEngine.growthPass1 target pool sel used).1.Nodup ∧
        (∀ s ∈ (StrategyEngine.growthPass1 target pool sel used).1,
          s ∈ sel ∨ s ∈ pool) ∧
        (∀ s ∈ (StrategyEngine.growthPass1 target pool sel used).1,
          s.fieldSalesRegio ∈ (StrategyEngine.growthPass1 target pool sel used).2)) := by
  intro pool
  induction pool with
  | nil =>
    intro sel used hnd hused
    exact ⟨hnd, fun s hs => Or.inl hs, hused⟩
  | cons s rest ih =>
    intro sel used hnd hused
    by_cases hcond : s.fieldSalesRegio ∉ used ∧ sel.length < target
    · simp only [StrategyEngine.growthPass1, if_pos hcond]
      have hnotin : s ∉ sel := fun hmem => hcond.1 (hused s hmem)
      have hnd2 : (sel ++ [s]).Nodup := by
        rw [List.nodup_append]
        exact ⟨hnd, List.nodup_singleton _,
          fun a ha hb => hnotin (by rwa [List.mem_singleton.mp hb] at ha)⟩
      have hused2 : ∀ t ∈ sel ++ [s],
          t.fieldSalesRegio ∈ used ++ [s.fieldSalesRegio] := by
        intro t ht
        rcases List.mem_append.mp ht with ht | ht
        · exact List.mem_append_left _ (hused t ht)
        · rw [List.mem_singleton.mp ht]
          exact List.mem_append_right _ (List.mem_singleton_self _)
      obtain ⟨h1, h2, h3⟩ := ih (sel ++ [s]) (used ++ [s.fieldSalesRegio]) hnd2 hused2
      refine ⟨h1, ?_, h3⟩
      intro t ht
      rcases h2 t ht with ht2 | ht2
      · rcases List.mem_append.mp ht2 with ht3 | ht3
        · exact Or.inl ht3
        · exact Or.inr (by rw [List.mem_singleton.mp ht3]; exact List.mem_cons_self s rest)
      · exact Or.inr (List.mem_cons_of_mem s ht2)
    · simp only [StrategyEngine.growthPass1, if_neg hcond]
      obtain ⟨h1, h2, h3⟩ := ih sel used hnd hused
      exact ⟨h1, fun t ht => (h2 t ht).imp id (List.mem_cons_of_mem s), h3⟩

theorem growthPass2_spec (target : Nat) :
    ∀ (pool sel : List StoreData), sel.Nodup →
      ((StrategyEngine.growthPass2 target pool sel).Nodup ∧
        ∀ s ∈ StrategyEngine.growthPass2 target pool sel, s ∈ sel ∨ s ∈ pool) := by
  intro pool
  induction pool with
  | nil =>
    intro sel hnd
    exact ⟨hnd, fun s hs => Or.inl hs⟩
  | cons s rest ih =>
    intro sel hnd
    by_cases hcond : s ∉ sel ∧ sel.length < target
    · simp only [StrategyEngine.growthPass2, if_pos hcond]
      have hnd2 : (sel ++ [s]).Nodup := by
        rw [List.nodup_append]
        exact ⟨hnd, List.nodup_singleton _,
          fun a ha hb => hcond.1 (by rwa [List.mem_singleton.mp hb] at ha)⟩
      obtain ⟨h1, h2⟩ := ih (sel ++ [s]) hnd2
      refine ⟨h1, ?_⟩
      intro t ht
      rcases h2 t ht with ht2 | ht2
      · rcases List.mem_append.mp ht2 with ht3 | ht3
        · exact Or.inl ht3
        · exact Or.inr (by rw [List.mem_singleton.mp ht3]; exact List.mem_cons_self s rest)
      · exact Or.inr (List.mem_cons_of_mem s ht2)
    · simp only [StrategyEngine.growthPass2, if_neg hcond]
      obtain ⟨h1, h2⟩ := ih sel hnd
      exact ⟨h1, fun t ht => (h2 t ht).imp id (List.mem_cons_of_mem s)⟩

/-- The two disjoint slices `slice(a, b)` and `slice(0, a)` of a
duplicate-free list concatenate to a duplicate-free list. -/
theorem slices_nodup_subset (l : List StoreData) (hl : l.Nodup) (a b : Nat) :
    (jsSlice l a b ++ jsSlice l 0 a).Nodup ∧ (jsSlice l a b).Nodup ∧
      ∀ s ∈ jsSlice l a b ++ jsSlice l 0 a, s ∈ l := by
  have h1 : List.Sublist (jsSlice l a b) (l.drop a) := List.take_sublist _ _
  have h2 : List.Sublist (jsSlice l 0 a) (l.take a) := by
    unfold jsSlice
    rw [List.drop_zero, Nat.sub_zero]
  have happ : List.Sublist (jsSlice l a b ++ jsSlice l 0 a) (l.drop a ++ l.take a) :=
    List.Sublist.append h1 h2
  have hperm : List.Perm (l.drop a ++ l.take a) l := by
    calc List.Perm (l.drop a ++ l.take a) (l.take a ++ l.drop a) :=
          List.perm_append_comm
      _ = l := List.take_append_drop a l
  have hnd : (l.drop a ++ l.take a).Nodup := hperm.nodup_iff.mpr hl
  refine ⟨happ.nodup hnd, (List.Sublist.trans h1 (List.drop_sublist a l)).nodup hl, ?_⟩
  intro s hs
  exact hperm.mem_iff.mp (happ.mem hs)

/-- The growth strategy returns a duplicate-free selection drawn from its
candidates. -/
theorem growthPotentialSelection_nodup_subset (stores : List StoreData)
    (targetConfig : TargetConfig) (config : StrategyConfiguration)
    (hnd : stores.Nodup) :
    (StrategyEngine.growthPotentialSelection stores targetConfig config).Nodup ∧
      ∀ s ∈ StrategyEngine.growthPotentialSelection stores targetConfig config,
        s ∈ stores := by
  simp only [StrategyEngine.growthPotentialSelection]
  set sorted := sortStoresAsc stores with hsort
  have hsortnd : sorted.Nodup := nodup_sortStoresAsc hnd
  set a := sorted.length * 2 / 10 with ha
  set b := sorted.length * 7 / 10 with hb
  set pool0 := jsSlice sorted a b with hpool0
  set gc := if pool0.length < targetConfig.total then pool0 ++ jsSlice sorted 0 a
    else pool0 with hgc
  obtain ⟨hs1, hs2, hs3⟩ := slices_nodup_subset sorted hsortnd a b
  have hgcnd : gc.Nodup ∧ ∀ s ∈ gc, s ∈ stores := by
    rw [hgc]
    by_cases hc : pool0.length < targetConfig.total
    · rw [if_pos hc]
      exact ⟨hs1, fun s hs => mem_sortStoresAsc.mp (hs3 s hs)⟩
    · rw [if_neg hc]
      exact ⟨hs2, fun s hs =>
        mem_sortStoresAsc.mp (hs3 s (List.mem_append_left _ hs))⟩
  obtain ⟨hp1nd, hp1mem, _⟩ :=
    growthPass1_spec targetConfig.total gc [] [] List.nodup_nil
      (fun s hs => absurd hs (List.not_mem_nil s))
  obtain ⟨hp2nd, hp2mem⟩ :=
    growthPass2_spec targetConfig.total gc
      (StrategyEngine.growthPass1 targetConfig.total gc [] []).1 hp1nd
  constructor
  · exact (List.take_sublist _ _).nodup hp2nd
  · intro s hs
    have hs2 := (List.take_sublist _ _).mem hs
    rcases hp2mem s hs2 with hs3 | hs3
    · rcases hp1mem s hs3 with hs4 | hs4
      · exact absurd hs4 (List.not_mem_nil s)
      · exact hgcnd.2 s hs4
    · exact hgcnd.2 s hs3

/-! ## Market penetration and demographic targeting lemmas -/

theorem marketLoop_spec (stores : List StoreData) (target storesLength : Nat) :
    ∀ (ds : List StrategyEngine.RegionDensity) (sel : List StoreData),
      sel.Nodup → (∀ s ∈ sel, s ∈ stores) →
      (∀ d ∈ ds, d.stores.Nodup ∧
        (∀ x ∈ d.stores, x ∈ stores ∧ x.fieldSalesRegio = d.region) ∧
        (∀ x ∈ d.stores, x ∉ sel)) →
      (ds.map (fun d => d.region)).Nodup →
      ((StrategyEngine.marketLoop target storesLength ds sel).Nodup ∧
        ∀ s ∈ StrategyEngine.marketLoop target storesLength ds sel, s ∈ stores) := by
  intro ds
  induction ds with
  | nil =>
    intro sel hnd hsub _ _
    exact ⟨hnd, hsub⟩
  | cons d rest ih =>
    intro sel hnd hsub hds hregs
    by_cases hfull : target ≤ sel.length
    · simp only [StrategyEngine.marketLoop, if_pos hfull]
      exact ⟨hnd, hsub⟩
    · simp only [StrategyEngine.marketLoop, if_neg hfull]
      obtain ⟨hdnd, hdmem, hdsel⟩ := hds d (List.mem_cons_self d rest)
      have htopsub : ∀ x ∈ (sortStoresDesc d.stores).take
          (max 1 (min (target - sel.length)
            ((target * d.stores.length + storesLength - 1) / storesLength))),
          x ∈ d.stores := by
        intro x hx
        exact mem_sortStoresDesc.mp ((List.take_sublist _ _).mem hx)
      have htopnd : ((sortStoresDesc d.stores).take
          (max 1 (min (target - sel.length)
            ((target * d.stores.length + storesLength - 1) / storesLength)))).Nodup :=
        (List.take_sublist _ _).nodup (nodup_sortStoresDesc hdnd)
      have hnd2 : (sel ++ (sortStoresDesc d.stores).take
          (max 1 (min (target - sel.length)
            ((target * d.stores.length + storesLength - 1) / storesLength)))).Nodup := by
        rw [List.nodup_append]
        exact ⟨hnd, htopnd, fun a ha hb => hdsel a (htopsub a hb) ha⟩
      have hsub2 : ∀ s ∈ sel ++ (sortStoresDesc d.stores).take
          (max 1 (min (target - sel.length)
            ((target * d.stores.length + storesLength - 1) / storesLength))),
          s ∈ stores := by
        intro s hs
        rcases List.mem_append.mp hs with hs | hs
        · exact hsub s hs
        · exact (hdmem s (htopsub s hs)).1
      refine ih _ hnd2 hsub2 ?_ (List.Nodup.of_cons hregs)
      intro d2 hd2
      obtain ⟨h1, h2, h3⟩ := hds d2 (List.mem_cons_of_mem d hd2)
      refine ⟨h1, h2, ?_⟩
      intro x hx hmem
      rcases List.mem_append.mp hmem with hm | hm
      · exact h3 x hx hm
      · have hx1 : x.fieldSalesRegio = d2.region := (h2 x hx).2
        have hx2 : x.fieldSalesRegio = d.region := (hdmem x (htopsub x hm)).2
        have heq : d2.region = d.region := by rw [← hx1, hx2]
        have : d.region ∈ rest.map (fun d => d.region) :=
          List.mem_map.mpr ⟨d2, hd2, heq⟩
        exact (List.nodup_cons.mp hregs).1 this

/-- The market penetration strategy returns a duplicate-free selection drawn
from its candidates. -/
theorem marketPenetrationSelection_nodup_subset (stores : List StoreData)
    (targetConfig : TargetConfig) (config : StrategyConfiguration)
    (hnd : stores.Nodup) :
    (StrategyEngine.marketPenetrationSelection stores targetConfig config).Nodup ∧
      ∀ s ∈ StrategyEngine.marketPenetrationSelection stores targetConfig config,
        s ∈ stores := by
  simp only [StrategyEngine.marketPenetrationSelection]
  set base := (StrategyEngine.groupStoresByRegion stores).map (fun p =>
      ({ region := p.1, storeCount := p.2.length,
         avgRevenue := (p.2.map (fun s => s.prodSelect)).sum / (p.2.length : ℚ),
         stores := p.2 } : StrategyEngine.RegionDensity)) with hbase
  have hchar : ∀ d ∈ base.mergeSort StrategyEngine.regionDensityLe,
      d.stores.Nodup ∧ (∀ x ∈ d.stores, x ∈ stores ∧ x.fieldSalesRegio = d.region) ∧
        (∀ x ∈ d.stores, x ∉ ([] : List StoreData)) := by
    intro d hd
    rw [List.mem_mergeSort, hbase] at hd
    obtain ⟨p, hp, rfl⟩ := List.mem_map.mp hd
    obtain ⟨r, _, rfl⟩ := List.mem_map.mp hp
    refine ⟨hnd.filter _, ?_, fun x _ hx => absurd hx (List.not_mem_nil x)⟩
    intro x hx
    obtain ⟨hx1, hx2⟩ := List.mem_filter.mp hx
    exact ⟨hx1, of_decide_eq_true hx2⟩
  have hregs : ((base.mergeSort StrategyEngine.regionDensityLe).map
      (fun d => d.region)).Nodup := by
    have hperm := (List.mergeSort_perm base StrategyEngine.regionDensityLe).map
      (fun d => d.region)
    rw [hperm.nodup_iff, hbase]
    unfold StrategyEngine.groupStoresByRegion
    rw [List.map_map, List.map_map]
    have hcomp : (((fun (d : StrategyEngine.RegionDensity) => d.region) ∘
        (fun p => ({ region := p.1, storeCount := p.2.length,
                     avgRevenue := (p.2.map (fun s => s.prodSelect)).sum / (p.2.length : ℚ),
                     stores := p.2 } : StrategyEngine.RegionDensity))) ∘
        (fun r => (r, stores.filter (fun s => decide (s.fieldSalesRegio = r))))) =
        fun r => r := rfl
    rw [hcomp]
    simpa using nodup_jsSetDedup _
  obtain ⟨h1, h2⟩ := marketLoop_spec stores targetConfig.total stores.length
    (base.mergeSort StrategyEngine.regionDensityLe) []
    List.nodup_nil (fun s hs => absurd hs (List.not_mem_nil s)) hchar hregs
  exact ⟨(List.take_sublist _ _).nodup h1,
    fun s hs => h2 s ((List.take_sublist _ _).mem hs)⟩

theorem demoLoop_spec (stores : List StoreData) (target : Nat) :
    ∀ (segs : List StrategyEngine.SegmentPerformance) (sel : List StoreData),
      sel.Nodup → (∀ s ∈ sel, s ∈ stores) →
      (∀ g ∈ segs, g.stores.Nodup ∧
        (∀ x ∈ g.stores, x ∈ stores ∧ StrategyEngine.demoKey x = g.segment) ∧
        (∀ x ∈ g.stores, x ∉ sel)) →
      (segs.map (fun g => g.segment)).Nodup →
      ((StrategyEngine.demoLoop target segs sel).Nodup ∧
        ∀ s ∈ StrategyEngine.demoLoop target segs sel, s ∈ stores) := by
  intro segs
  induction segs with
  | nil =>
    intro sel hnd hsub _ _
    exact ⟨hnd, hsub⟩
  | cons g rest ih =>
    intro sel hnd hsub hgs hsegs
    by_cases hfull : target ≤ sel.length
    · simp only [StrategyEngine.demoLoop, if_pos hfull]
      exact ⟨hnd, hsub⟩
    · simp only [StrategyEngine.demoLoop, if_neg hfull]
      obtain ⟨hgnd, hgmem, hgsel⟩ := hgs g (List.mem_cons_self g rest)
      have htopsub : ∀ x ∈ g.stores.take
          (min (target - sel.length) (max 1 ((g.stores.length * 3 + 9) / 10))),
          x ∈ g.stores := fun x hx => (List.take_sublist _ _).mem hx
      have hnd2 : (sel ++ g.stores.take
          (min (target - sel.length) (max 1 ((g.stores.length * 3 + 9) / 10)))).Nodup := by
        rw [List.nodup_append]
        exact ⟨hnd, (List.take_sublist _ _).nodup hgnd,
          fun a ha hb => hgsel a (htopsub a hb) ha⟩
      have hsub2 : ∀ s ∈ sel ++ g.stores.take
          (min (target - sel.length) (max 1 ((g.stores.length * 3 + 9) / 10))),
          s ∈ stores := by
        intro s hs
        rcases List.mem_append.mp hs with hs | hs
        · exact hsub s hs
        · exact (hgmem s (htopsub s hs)).1
      refine ih _ hnd2 hsub2 ?_ (List.Nodup.of_cons hsegs)
      intro g2 hg2
      obtain ⟨h1, h2, h3⟩ := hgs g2 (List.mem_cons_of_mem g hg2)
      refine ⟨h1, h2, ?_⟩
      intro x hx hmem
      rcases List.mem_append.mp hmem with hm | hm
      · exact h3 x hx hm
      · have hx1 : StrategyEngine.demoKey x = g2.segment := (h2 x hx).2
        have hx2 : StrategyEngine.demoKey x = g.segment := (hgmem x (htopsub x hm)).2
        have heq : g2.segment = g.segment := by rw [← hx1, hx2]
        have : g.segment ∈ rest.map (fun g => g.segment) :=
          List.mem_map.mpr ⟨g2, hg2, heq⟩
        exact (List.nodup_cons.mp hsegs).1 this

/-- The demographic targeting strategy returns a duplicate-free selection
drawn from its candidates. -/
theorem demographicTargetingSelection_nodup_subset (stores : List StoreData)
    (targetConfig : TargetConfig) (config : StrategyConfiguration)
    (hnd : stores.Nodup) :
    (StrategyEngine.demographicTargetingSelection stores targetConfig config).Nodup ∧
      ∀ s ∈ StrategyEngine.demographicTargetingSelection stores targetConfig config,
        s ∈ stores := by
  simp only [StrategyEngine.demographicTargetingSelection]
  set base := ((jsSetDedup (stores.map StrategyEngine.demoKey)).map
      (fun k => (k, stores.filter (fun s => decide (StrategyEngine.demoKey s = k))))).map
        (fun p => ({ segment := p.1, storeCount := p.2.length,
                     avgRevenue := (p.2.map (fun s => s.prodSelect)).sum / (p.2.length : ℚ),
                     totalRevenue := (p.2.map (fun s => s.prodSelect)).sum,
                     stores := sortStoresDesc p.2 } :
            StrategyEngine.SegmentPerformance)) with hbase
  have hchar : ∀ g ∈ base.mergeSort StrategyEngine.segmentLe,
      g.stores.Nodup ∧
        (∀ x ∈ g.stores, x ∈ stores ∧ StrategyEngine.demoKey x = g.segment) ∧
        (∀ x ∈ g.stores, x ∉ ([] : List StoreData)) := by
    intro g hg
    rw [List.mem_mergeSort, hbase] at hg
    obtain ⟨p, hp, rfl⟩ := List.mem_map.mp hg
    obtain ⟨k, _, rfl⟩ := List.mem_map.mp hp
    refine ⟨nodup_sortStoresDesc (hnd.filter _), ?_,
      fun x _ hx => absurd hx (List.not_mem_nil x)⟩
    intro x hx
    rw [mem_sortStoresDesc] at hx
    obtain ⟨hx1, hx2⟩ := List.mem_filter.mp hx
    exact ⟨hx1, of_decide_eq_true hx2⟩
  have hsegs : ((base.mergeSort StrategyEngine.segmentLe).map
      (fun g => g.segment)).Nodup := by
    have hperm := (List.mergeSort_perm base StrategyEngine.segmentLe).map
      (fun g => g.segment)
    rw [hperm.nodup_iff, hbase, List.map_map, List.map_map]
    have hcomp : (((fun (g : StrategyEngine.SegmentPerformance) => g.segment) ∘
        (fun p => ({ segment := p.1, storeCount := p.2.length,
                     avgRevenue := (p.2.map (fun s => s.prodSelect)).sum / (p.2.length : ℚ),
                     totalRevenue := (p.2.map (fun s => s.prodSelect)).sum,
                     stores := sortStoresDesc p.2 } : StrategyEngine.SegmentPerformance))) ∘
        (fun k => (k, stores.filter (fun s => decide (StrategyEngine.demoKey s = k))))) =
        fun k => k := rfl
    rw [hcomp]
    simpa using nodup_jsSetDedup _
  obtain ⟨h1, h2⟩ := demoLoop_spec stores targetConfig.total
    (base.mergeSort StrategyEngine.segmentLe) []
    List.nodup_nil (fun s hs => absurd hs (List.not_mem_nil s)) hchar hsegs
  exact ⟨(List.take_sublist _ _).nodup h1,
    fun s hs => h2 s ((List.take_sublist _ _).mem hs)⟩

/-! ## Portfolio balance lemmas -/

theorem expPhase1_spec (finalRemaining : List StoreData) (expCount : Nat) :
    ∀ (rs : List String) (acc : List StoreData),
      rs.Nodup → acc.Nodup → (∀ r ∈ rs, ∀ s ∈ acc, s.fieldSalesRegio ≠ r) →
      ((StrategyEngine.expPhase1 finalRemaining expCount rs acc).Nodup ∧
        ∀ s ∈ StrategyEngine.expPhase1 finalRemaining expCount rs acc,
          s ∈ acc ∨ s ∈ finalRemaining) := by
  intro rs
  induction rs with
  | nil =>
    intro acc _ hacc _
    exact ⟨hacc, fun s hs => Or.inl hs⟩
  | cons region rs ih =>
    intro acc hnd hacc hdisj
    by_cases hfull : expCount ≤ acc.length
    · simp only [StrategyEngine.expPhase1, if_pos hfull]
      exact ⟨hacc, fun s hs => Or.inl hs⟩
    · cases hget : finalRemaining.filter (fun s => decide (s.fieldSalesRegio = region)) with
      | nil =>
        simp only [StrategyEngine.expPhase1, if_neg hfull, hget]
        exact ih acc (List.Nodup.of_cons hnd) hacc
          (fun r hr s hs => hdisj r (List.mem_cons_of_mem region hr) s hs)
      | cons b rest =>
        simp only [StrategyEngine.expPhase1, if_neg hfull, hget]
        have hbest : jsReduceBest b rest ∈
            finalRemaining.filter (fun s => decide (s.fieldSalesRegio = region)) := by
          rw [hget]; exact jsReduceBest_mem b rest
        obtain ⟨hbfr, hbreg⟩ := List.mem_filter.mp hbest
        have hbreg2 : (jsReduceBest b rest).fieldSalesRegio = region :=
          of_decide_eq_true hbreg
        have hnotin : jsReduceBest b rest ∉ acc := fun hmem =>
          hdisj region (List.mem_cons_self region rs) _ hmem hbreg2
        have hacc2 : (acc ++ [jsReduceBest b rest]).Nodup := by
          rw [List.nodup_append]
          exact ⟨hacc, List.nodup_singleton _,
            fun a ha hb => hnotin (by rwa [List.mem_singleton.mp hb] at ha)⟩
        have hdisj2 : ∀ r ∈ rs, ∀ s ∈ acc ++ [jsReduceBest b rest],
            s.fieldSalesRegio ≠ r := by
          intro r hr s hs hfr
          rcases List.mem_append.mp hs with hs | hs
          · exact hdisj r (List.mem_cons_of_mem region hr) s hs hfr
          · rw [List.mem_singleton.mp hs] at hfr
            rw [hbreg2] at hfr
            exact (List.nodup_cons.mp hnd).1 (hfr ▸ hr)
        obtain ⟨h1, h2⟩ := ih (acc ++ [jsReduceBest b rest])
          (List.Nodup.of_cons hnd) hacc2 hdisj2
        refine ⟨h1, ?_⟩
        intro s hs
        rcases h2 s hs with hs2 | hs2
        · rcases List.mem_append.mp hs2 with hs3 | hs3
          · exact Or.inl hs3
          · rw [List.mem_singleton.mp hs3]
            exact Or.inr hbfr
        · exact Or.inr hs2

/-- The portfolio balance strategy returns a duplicate-free selection drawn
from its candidates. -/
theorem portfolioBalanceSelection_nodup_subset (stores : List StoreData)
    (targetConfig : TargetConfig) (config : StrategyConfiguration)
    (hnd : stores.Nodup) :
    (StrategyEngine.portfolioBalanceSelection stores targetConfig config).Nodup ∧
      ∀ s ∈ StrategyEngine.portfolioBalanceSelection stores targetConfig config,
        s ∈ stores := by
  simp only [StrategyEngine.portfolioBalanceSelection]
  set core := StrategyEngine.geographicDistributionSelection stores
    ⟨(targetConfig.total * 7 + 5) / 10⟩ config with hcoredef
  obtain ⟨hcorend, hcoresub⟩ := geographicDistributionSelection_nodup_subset stores
    ⟨(targetConfig.total * 7 + 5) / 10⟩ config hnd
  rw [← hcoredef] at hcorend hcoresub
  set remaining := stores.filter (fun s => !(decide (s ∈ core))) with hremdef
  have hremnd : remaining.Nodup := hnd.filter _
  have hremmem : ∀ s ∈ remaining, s ∈ stores ∧ s ∉ core := by
    intro s hs
    rw [hremdef] at hs
    obtain ⟨h1, h2⟩ := List.mem_filter.mp hs
    rw [Bool.not_eq_eq_eq_not, Bool.not_true, decide_eq_false_iff_not] at h2
    exact ⟨h1, h2⟩
  set growth := StrategyEngine.growthPotentialSelection remaining
    ⟨(targetConfig.total * 2 + 5) / 10⟩ config with hgrowthdef
  obtain ⟨hgrownd, hgrowsub⟩ := growthPotentialSelection_nodup_subset remaining
    ⟨(targetConfig.total * 2 + 5) / 10⟩ config hremnd
  rw [← hgrowthdef] at hgrownd hgrowsub
  have hsel2nd : (core ++ growth).Nodup := by
    rw [List.nodup_append]
    refine ⟨hcorend, hgrownd, ?_⟩
    intro a ha hb
    exact (hremmem a (hgrowsub a hb)).2 ha
  have hsel2sub : ∀ s ∈ core ++ growth, s ∈ stores := by
    intro s hs
    rcases List.mem_append.mp hs with hs | hs
    · exact hcoresub s hs
    · exact (hremmem s (hgrowsub s hs)).1
  set fr := stores.filter (fun s => !(decide (s ∈ core ++ growth))) with hfrdef
  have hfrnd : fr.Nodup := hnd.filter _
  have hfrmem : ∀ s ∈ fr, s ∈ stores ∧ s ∉ core ++ growth := by
    intro s hs
    rw [hfrdef] at hs
    obtain ⟨h1, h2⟩ := List.mem_filter.mp hs
    rw [Bool.not_eq_eq_eq_not, Bool.not_true, decide_eq_false_iff_not] at h2
    exact ⟨h1, h2⟩
  have hbranch : ∀ (l : List StoreData), l.Nodup → (∀ s ∈ l, s ∈ stores) →
      ((l.take targetConfig.total).Nodup ∧
        ∀ s ∈ l.take targetConfig.total, s ∈ stores) := by
    intro l h1 h2
    exact ⟨(List.take_sublist _ _).nodup h1,
      fun s hs => h2 s ((List.take_sublist _ _).mem hs)⟩
  obtain ⟨hexnd, hexsub⟩ :=
    expPhase1_spec fr
      (targetConfig.total - (targetConfig.total * 7 + 5) / 10 -
        (targetConfig.total * 2 + 5) / 10)
      ((jsSetDedup (stores.map (fun s => s.fieldSalesRegio))).filter
        (fun r => !(decide (r ∈ (core ++ growth).map (fun s => s.fieldSalesRegio)))))
      [] ((nodup_jsSetDedup _).filter _) List.nodup_nil
      (fun r _ s hs => absurd hs (List.not_mem_nil s))
  set exp1 := StrategyEngine.expPhase1 fr
    (targetConfig.total - (targetConfig.total * 7 + 5) / 10 -
      (targetConfig.total * 2 + 5) / 10)
    ((jsSetDedup (stores.map (fun s => s.fieldSalesRegio))).filter
      (fun r => !(decide (r ∈ (core ++ growth).map (fun s => s.fieldSalesRegio)))))
    [] with hexp1def
  have hexsub2 : ∀ s ∈ exp1, s ∈ fr := by
    intro s hs
    rcases hexsub s hs with hs2 | hs2
    · exact absurd hs2 (List.not_mem_nil s)
    · exact hs2
  have hrem2mem : ∀ s ∈ sortStoresAsc (fr.filter (fun s => !(decide (s ∈ exp1)))),
      s ∈ fr ∧ s ∉ exp1 := by
    intro s hs
    rw [mem_sortStoresAsc] at hs
    obtain ⟨h1, h2⟩ := List.mem_filter.mp hs
    rw [Bool.not_eq_eq_eq_not, Bool.not_true, decide_eq_false_iff_not] at h2
    exact ⟨h1, h2⟩
  have hexpnd : (exp1 ++ (sortStoresAsc
      (fr.filter (fun s => !(decide (s ∈ exp1))))).take
        (targetConfig.total - (targetConfig.total * 7 + 5) / 10 -
          (targetConfig.total * 2 + 5) / 10 - exp1.length)).Nodup := by
    rw [List.nodup_append]
    refine ⟨hexnd, (List.take_sublist _ _).nodup
      (nodup_sortStoresAsc (hfrnd.filter _)), ?_⟩
    intro a ha hb
    exact (hrem2mem a ((List.take_sublist _ _).mem hb)).2 ha
  have hexpsub : ∀ s ∈ exp1 ++ (sortStoresAsc
      (fr.filter (fun s => !(decide (s ∈ exp1))))).take
        (targetConfig.total - (targetConfig.total * 7 + 5) / 10 -
          (targetConfig.total * 2 + 5) / 10 - exp1.length), s ∈ fr := by
    intro s hs
    rcases List.mem_append.mp hs with hs | hs
    · exact hexsub2 s hs
    · exact (hrem2mem s ((List.take_sublist _ _).mem hs)).1
  apply hbranch
  · by_cases hcond : 0 < fr.length ∧
        0 < targetConfig.total - (targetConfig.total * 7 + 5) / 10 -
          (targetConfig.total * 2 + 5) / 10
    · rw [if_pos hcond, List.nodup_append]
      exact ⟨hsel2nd, hexpnd, fun a ha hb => (hfrmem a (hexpsub a hb)).2 ha⟩
    · rw [if_neg hcond]
      exact hsel2nd
  · intro s hs
    by_cases hcond : 0 < fr.length ∧
        0 < targetConfig.total - (targetConfig.total * 7 + 5) / 10 -
          (targetConfig.total * 2 + 5) / 10
    · rw [if_pos hcond] at hs
      rcases List.mem_append.mp hs with hs | hs
      · exact hsel2sub s hs
      · exact (hfrmem s (hexpsub s hs)).1
    · rw [if_neg hcond] at hs
      exact hsel2sub s hs

/-- The revenue maximization strategy returns a duplicate-free selection drawn
from its candidates. -/
theorem revenueMaximizationSelection_nodup_subset (stores : List StoreData)
    (targetConfig : TargetConfig) (config : StrategyConfiguration)
    (hnd : stores.Nodup) :
    (StrategyEngine.revenueMaximizationSelection stores targetConfig config).Nodup ∧
      ∀ s ∈ StrategyEngine.revenueMaximizationSelection stores targetConfig config,
        s ∈ stores := by
  unfold StrategyEngine.revenueMaximizationSelection
  exact ⟨(List.take_sublist _ _).nodup (nodup_sortStoresDesc hnd),
    fun s hs => mem_sortStoresDesc.mp ((List.take_sublist _ _).mem hs)⟩

/-- Every strategy implementation (as dispatched by `strategySelect`) is
duplicate-free, draws only from its candidates, and returns at most
`targetCount` records. -/
theorem strategySelect_spec (strategy : SelectionStrategy) (stores : List StoreData)
    (targetConfig : TargetConfig) (config : StrategyConfiguration)
    (hnd : stores.Nodup) :
    (StrategyEngine.strategySelect strategy stores targetConfig config).Nodup ∧
      (∀ s ∈ StrategyEngine.strategySelect strategy stores targetConfig config,
        s ∈ stores) ∧
      (StrategyEngine.strategySelect strategy stores targetConfig config).length ≤
        targetConfig.total := by
  have hlen : (StrategyEngine.strategySelect strategy stores targetConfig config).length ≤
      targetConfig.total := by
    cases strategy <;>
      simp only [StrategyEngine.strategySelect,
        StrategyEngine.revenueMaximizationSelection,
        StrategyEngine.geographicDistributionSelection,
        StrategyEngine.growthPotentialSelection,
        StrategyEngine.portfolioBalanceSelection,
        StrategyEngine.marketPenetrationSelection,
        StrategyEngine.demographicTargetingSelection] <;>
      exact List.length_take_le _ _
  cases strategy with
  | revenueFocus =>
    obtain ⟨h1, h2⟩ := revenueMaximizationSelection_nodup_subset stores targetConfig config hnd
    exact ⟨h1, h2, hlen⟩
  | geographicCoverage =>
    obtain ⟨h1, h2⟩ := geographicDistributionSelection_nodup_subset stores targetConfig config hnd
    exact ⟨h1, h2, hlen⟩
  | growthOpportunities =>
    obtain ⟨h1, h2⟩ := growthPotentialSelection_nodup_subset stores targetConfig config hnd
    exact ⟨h1, h2, hlen⟩
  | portfolioBalance =>
    obtain ⟨h1, h2⟩ := portfolioBalanceSelection_nodup_subset stores targetConfig config hnd
    exact ⟨h1, h2, hlen⟩
  | marketPenetration =>
    obtain ⟨h1, h2⟩ := marketPenetrationSelection_nodup_subset stores targetConfig config hnd
    exact ⟨h1, h2, hlen⟩
  | demographicTargeting =>
    obtain ⟨h1, h2⟩ := demographicTargetingSelection_nodup_subset stores targetConfig config hnd
    exact ⟨h1, h2, hlen⟩

/-! ## Claims -/

/-- C1: for every strategy, every candidate list and every targetCount, the
strategy implementation's selection has length at most
`min targetCount |candidates|`, contains only records drawn from the
candidates, and contains no record twice.  The hypothesis `stores.Nodup`
states that the candidate array does not contain the same record twice — in
the JS source records are compared by object identity, and the engine's
candidate arrays hold pairwise-distinct record objects. -/
theorem claim1_selection_bounds (strategy : SelectionStrategy) (stores : List StoreData)
    (targetConfig : TargetConfig) (config : StrategyConfiguration)
    (hnd : stores.Nodup) :
    (StrategyEngine.strategySelect strategy stores targetConfig config).length ≤
        min targetConfig.total stores.length ∧
      (∀ s ∈ StrategyEngine.strategySelect strategy stores targetConfig config,
        s ∈ stores) ∧
      (StrategyEngine.strategySelect strategy stores targetConfig config).Nodup := by
  obtain ⟨h1, h2, h3⟩ := strategySelect_spec strategy stores targetConfig config hnd
  exact ⟨le_min h3 (nodup_subset_length_le h1 h2), h2, h1⟩

unseal Rat.add Rat.sub Rat.mul Rat.inv Rat.ofScientific Nat.gcd List.mergeSort List.merge in
/-- Witness for C1: the hypothesis holds and the theorem applies at
`strategy = revenue-focus`, `stores = [storeA, storeB]`, `targetCount = 1`. -/
theorem claim1_selection_bounds_witness :
    ([storeA, storeB] : List StoreData).Nodup ∧
      ((StrategyEngine.strategySelect .revenueFocus [storeA, storeB] ⟨1⟩
            ⟨.revenueFocus, [], [], []⟩).length ≤
          min 1 ([storeA, storeB] : List StoreData).length ∧
        (∀ s ∈ StrategyEngine.strategySelect .revenueFocus [storeA, storeB] ⟨1⟩
            ⟨.revenueFocus, [], [], []⟩, s ∈ ([storeA, storeB] : List StoreData)) ∧
        (StrategyEngine.strategySelect .revenueFocus [storeA, storeB] ⟨1⟩
          ⟨.revenueFocus, [], [], []⟩).Nodup) :=
  ⟨by decide, claim1_selection_bounds .revenueFocus [storeA, storeB] ⟨1⟩
    ⟨.revenueFocus, [], [], []⟩ (by decide)⟩

/-- C2: for every strategy identifier and every target configuration, calling
`selectStores` with an empty working set returns, without throwing, exactly the
zeroed `SelectionResult`: empty selection, zero totals and averages, zero
coverage, all-zero performance distribution, and empty statistics. -/
theorem claim2_empty_working_set (stores : List StoreData) (strategy : SelectionStrategy)
    (targetConfig : TargetConfig) (filteredStores : Option (List StoreData))
    (strategyConfig : Option StrategyConfiguration)
    (h : filteredStores.getD stores = []) :
    StrategyEngine.selectStores stores strategy targetConfig filteredStores strategyConfig =
      { selectedStores := []
        totalRevenue := 0
        averageRevenue := some 0
        regionCoverage := some 0
        performanceDistribution := { high := 0, medium := 0, low := 0 }
        statistics := { totalStores := 0, uniqueRegions := 0, uniqueRetailers := 0,
                        revenuePerRegion := [] } } := by
  unfold StrategyEngine.selectStores
  rw [h]
  rfl

/-- Witness for C2: the hypothesis holds and the theorem applies at
`allStores = []`, `filteredStores` absent, strategy `revenue-focus`,
`targetCount = 10`. -/
theorem claim2_empty_working_set_witness :
    ((none : Option (List StoreData)).getD [] = []) ∧
      StrategyEngine.selectStores [] .revenueFocus ⟨10⟩ none none =
        { selectedStores := []
          totalRevenue := 0
          averageRevenue := some 0
          regionCoverage := some 0
          performanceDistribution := { high := 0, medium := 0, low := 0 }
          statistics := { totalStores := 0, uniqueRegions := 0, uniqueRetailers := 0,
                          revenuePerRegion := [] } } :=
  ⟨rfl, claim2_empty_working_set [] .revenueFocus ⟨10⟩ none none rfl⟩

unseal Rat.add Rat.sub Rat.mul Rat.inv Rat.ofScientific Nat.gcd List.mergeSort List.merge in
/-- C3 counterexample: with non-empty `allStores = [storeA]` and a *provided
but empty* `filteredStores = []`, the engine does **not** select from
`allStores`: the JS test `filteredStores || stores` takes the (truthy) empty
array, so the call returns the empty selection, while running on `allStores`
would select `storeA`. -/
theorem claim3_counterexample :
    (StrategyEngine.selectStores [storeA] .revenueFocus ⟨1⟩ (some []) none).selectedStores
        = [] ∧
      (StrategyEngine.selectStores [storeA] .revenueFocus ⟨1⟩ none none).selectedStores
        = [storeA] ∧
      ([] : List StoreData) ≠ [storeA] := by
  refine ⟨by decide, by decide, by decide⟩

/-- C3 amended: the working set is `filteredStores` whenever that argument is
provided — *including when it is empty* — and `allStores` only when it is
absent; consequently a call with `filteredStores = []` returns the zeroed
empty result rather than selecting from `allStores`. -/
theorem claim3_working_set_amended (stores : List StoreData) (strategy : SelectionStrategy)
    (targetConfig : TargetConfig) (filteredStores : Option (List StoreData))
    (strategyConfig : Option StrategyConfiguration) :
    StrategyEngine.selectStores stores strategy targetConfig filteredStores strategyConfig =
      StrategyEngine.selectStores (filteredStores.getD stores) strategy targetConfig
        none strategyConfig := by
  cases filteredStores <;> rfl

unseal Rat.add Rat.sub Rat.mul Rat.inv Rat.ofScientific Nat.gcd List.mergeSort List.merge in
/-- C4 (code bug evaluation): a working set of one store under
`growth-opportunities` with `targetCount = 1` produces an *empty* selection
(the 20th-to-70th percentile pool of one store is empty), and
`generateResult` then computes `averageRevenue = 0 / 0 = NaN` (modelled
`none`) instead of the specified `0` — the division is not guarded. -/
theorem claim4_average_revenue_nan :
    (StrategyEngine.selectStores [storeA] .growthOpportunities ⟨1⟩ none none).selectedStores
        = [] ∧
      (StrategyEngine.selectStores [storeA] .growthOpportunities ⟨1⟩ none none).averageRevenue
        = none := by
  refine ⟨by decide, by decide⟩

unseal Rat.add Rat.sub Rat.mul Rat.inv Rat.ofScientific Nat.gcd in
/-- C5 counterexample: `histogram([{performanceValue:100}], 8)` places the
single record in the **last** bin (index 7), not in bin 0: bin 0 has count 0. -/
theorem claim5_counterexample :
    ((PerformanceAnalyzer.generateHistogram [storeA] 8).map (fun b => b.count) =
        [0, 0, 0, 0, 0, 0, 0, 1]) ∧
      ¬((PerformanceAnalyzer.generateHistogram [storeA] 8).head?.map (fun b => b.count) =
        some 1) := by
  refine ⟨by decide, by decide⟩

/-- C5 amended: for every non-empty record list whose performance values are
all equal, `generateHistogram` with `binCount ≥ 1` does not divide by zero or
throw; it returns `binCount` bins and places all records in the **last** bin
(index `binCount - 1`), every other bin being empty — so each record falls
into exactly one bin. -/
theorem claim5_degenerate_histogram_amended (stores : List StoreData) (bins : Nat) (c : ℚ)
    (hne : stores ≠ []) (hbins : 1 ≤ bins) (hall : ∀ s ∈ stores, s.prodSelect = c) :
    (PerformanceAnalyzer.generateHistogram stores bins).length = bins ∧
      (PerformanceAnalyzer.generateHistogram stores bins).map (fun b => b.stores) =
        (List.range bins).map (fun i => if i = bins - 1 then stores else []) := by
  have hmin : jsMinList (stores.map (fun s => s.prodSelect)) = c :=
    jsMinList_const (by simpa using hne)
      (fun x hx => by
        rcases List.mem_map.mp hx with ⟨s, hs, rfl⟩
        exact hall s hs)
  have hmax : jsMaxList (stores.map (fun s => s.prodSelect)) = c :=
    jsMaxList_const (by simpa using hne)
      (fun x hx => by
        rcases List.mem_map.mp hx with ⟨s, hs, rfl⟩
        exact hall s hs)
  simp only [PerformanceAnalyzer.generateHistogram, hmin, hmax]
  constructor
  · simp
  · rw [List.map_map]
    refine List.map_congr_left ?_
    intro i hi
    have hsize : ((c - c) / (bins : ℚ)) = 0 := by
      rw [sub_self, zero_div]
    rw [hsize]
    simp only [Function.comp, mul_zero, add_zero]
    by_cases hlast : i = bins - 1
    · rw [if_pos hlast]
      rw [List.filter_eq_self]
      intro s hs
      rw [hall s hs]
      simp [hlast]
    · rw [if_neg hlast]
      rw [List.filter_eq_nil_iff]
      intro s hs
      rw [hall s hs]
      simp [hlast]

/-- Witness for C5 amended: the hypotheses hold and the theorem applies at
`stores = [storeA]` (performance 100), `binCount = 8`. -/
theorem claim5_degenerate_histogram_amended_witness :
    (([storeA] : List StoreData) ≠ [] ∧ 1 ≤ 8 ∧
        ∀ s ∈ ([storeA] : List StoreData), s.prodSelect = 100) ∧
      ((PerformanceAnalyzer.generateHistogram [storeA] 8).length = 8 ∧
        (PerformanceAnalyzer.generateHistogram [storeA] 8).map (fun b => b.stores) =
          (List.range 8).map (fun i => if i = 8 - 1 then [storeA] else [])) :=
  ⟨⟨by decide, by decide, by decide⟩,
    claim5_degenerate_histogram_amended [storeA] 8 100 (by decide) (by decide) (by decide)⟩

unseal Rat.add Rat.sub Rat.mul Rat.inv Rat.ofScientific Nat.gcd List.mergeSort List.merge in
/-- C9 counterexample: a `revenue-focus` call with `allStores = [storeA, storeB]`
(performance 100 then 200) and no `filteredStores` leaves the caller's array
sorted descending, `[storeB, storeA]` — not in its original order. -/
theorem claim9_counterexample :
    StrategyEngine.allStoresAfterSelect [storeA, storeB] .revenueFocus none ≠
      [storeA, storeB] := by
  decide

/-- C9 amended: a `selectStores` call never adds, removes or modifies records
of the caller's `stores` array, but `revenue-focus` and `growth-opportunities`
sort the working array in place, so the array afterwards is in general only a
*permutation* of the original; the four other strategies leave it unchanged
(they sort only freshly created arrays). -/
theorem claim9_mutation_amended (stores : List StoreData) (strategy : SelectionStrategy)
    (filteredStores : Option (List StoreData)) :
    List.Perm (StrategyEngine.allStoresAfterSelect stores strategy filteredStores) stores ∧
      StrategyEngine.allStoresAfterSelect stores .geographicCoverage filteredStores = stores ∧
      StrategyEngine.allStoresAfterSelect stores .portfolioBalance filteredStores = stores ∧
      StrategyEngine.allStoresAfterSelect stores .marketPenetration filteredStores = stores ∧
      StrategyEngine.allStoresAfterSelect stores .demographicTargeting filteredStores = stores := by
  refine ⟨?_, ?_, ?_, ?_, ?_⟩
  · cases filteredStores with
    | some fs => exact List.Perm.refl _
    | none =>
      unfold StrategyEngine.allStoresAfterSelect
      by_cases h : stores.length = 0
      · rw [if_pos h]
      · rw [if_neg h]
        cases strategy <;>
          first
            | exact sortStoresDesc_perm stores
            | exact sortStoresAsc_perm stores
            | exact List.Perm.refl _
  all_goals
    cases filteredStores <;>
      simp [StrategyEngine.allStoresAfterSelect, StrategyEngine.workingStoresAfterSelect]

/-- C6: for every candidate list and every `0 < k < |candidates|`, Revenue
Focus with `targetCount = k` is a true top-k by performance value: the
descending sort splits into the selection followed by the unselected
candidates (together a permutation of the candidates), every selected
performance value is at least every excluded one (so the minimum selected
value is at least the maximum excluded value), and the selected records are
ordered by `prodSelect` descending. -/
theorem claim6_revenue_topk (stores : List StoreData) (targetConfig : TargetConfig)
    (config : StrategyConfiguration)
    (h1 : 0 < targetConfig.total) (h2 : targetConfig.total < stores.length) :
    List.Perm
        (StrategyEngine.revenueMaximizationSelection stores targetConfig config ++
          (sortStoresDesc stores).drop targetConfig.total) stores ∧
      (∀ a ∈ StrategyEngine.revenueMaximizationSelection stores targetConfig config,
        ∀ b ∈ (sortStoresDesc stores).drop targetConfig.total,
          b.prodSelect ≤ a.prodSelect) ∧
      ((StrategyEngine.revenueMaximizationSelection stores targetConfig config).map
          (fun s => s.prodSelect)).Pairwise (fun a b => b ≤ a) := by
  have hsplit : (sortStoresDesc stores).take targetConfig.total ++
      (sortStoresDesc stores).drop targetConfig.total = sortStoresDesc stores :=
    List.take_append_drop _ _
  have hpair : (sortStoresDesc stores).Pairwise (fun a b => storeDescLe a b = true) :=
    @List.sorted_mergeSort StoreData storeDescLe
      (fun a b c hab hbc =>
        decide_eq_true (le_trans (of_decide_eq_true hbc) (of_decide_eq_true hab)))
      (fun a b => by
        rcases le_total b.prodSelect a.prodSelect with h | h
        · exact Bool.or_eq_true_iff.mpr (Or.inl (decide_eq_true h))
        · exact Bool.or_eq_true_iff.mpr (Or.inr (decide_eq_true h)))
      stores
  rw [← hsplit] at hpair
  obtain ⟨p1, _, pcross⟩ := List.pairwise_append.mp hpair
  refine ⟨?_, ?_, ?_⟩
  · unfold StrategyEngine.revenueMaximizationSelection
    rw [hsplit]
    exact sortStoresDesc_perm stores
  · intro a ha b hb
    exact of_decide_eq_true (pcross a ha b hb)
  · unfold StrategyEngine.revenueMaximizationSelection
    exact List.pairwise_map.mpr
      (p1.imp (fun hab => of_decide_eq_true hab))

unseal Rat.add Rat.sub Rat.mul Rat.inv Rat.ofScientific Nat.gcd List.mergeSort List.merge in
/-- Witness for C6: the hypotheses hold and the theorem applies at
`stores = [storeA, storeB]`, `targetCount = 1`. -/
theorem claim6_revenue_topk_witness :
    (0 < 1 ∧ 1 < ([storeA, storeB] : List StoreData).length) ∧
      (List.Perm
          (StrategyEngine.revenueMaximizationSelection [storeA, storeB] ⟨1⟩
              ⟨.revenueFocus, [], [], []⟩ ++
            (sortStoresDesc [storeA, storeB]).drop 1) [storeA, storeB] ∧
        (∀ a ∈ StrategyEngine.revenueMaximizationSelection [storeA, storeB] ⟨1⟩
            ⟨.revenueFocus, [], [], []⟩,
          ∀ b ∈ (sortStoresDesc [storeA, storeB]).drop 1,
            b.prodSelect ≤ a.prodSelect) ∧
        ((StrategyEngine.revenueMaximizationSelection [storeA, storeB] ⟨1⟩
            ⟨.revenueFocus, [], [], []⟩).map
            (fun s => s.prodSelect)).Pairwise (fun a b => b ≤ a)) :=
  ⟨⟨by decide, by decide⟩,
    claim6_revenue_topk [storeA, storeB] ⟨1⟩ ⟨.revenueFocus, [], [], []⟩
      (by decide) (by decide)⟩

unseal Rat.add Rat.sub Rat.mul Rat.inv Rat.ofScientific Nat.gcd in
/-- C8 counterexample: on the example scenario, Geographic Coverage with
`targetCount = 2` returns the per-region winners in region-iteration order —
which is `["North", "South"]` (first occurrence order of the input) — i.e.
performance `[500, 550]`, not `[550, 500]` as the claim asserts. -/
theorem claim8_counterexample :
    (StrategyEngine.geographicDistributionSelection exampleStores ⟨2⟩
          ⟨.geographicCoverage, [], [], []⟩).map (fun s => s.prodSelect) = [500, 550] ∧
      ¬((StrategyEngine.geographicDistributionSelection exampleStores ⟨2⟩
          ⟨.geographicCoverage, [], [], []⟩).map (fun s => s.prodSelect) = [550, 500]) := by
  refine ⟨by decide, by decide⟩

unseal Rat.add Rat.sub Rat.mul Rat.inv Rat.ofScientific Nat.gcd List.mergeSort List.merge in
/-- C8 amended: on the example scenario, Revenue Focus with `targetCount = 3`
returns the records with performance `[550, 500, 450]` in that order, and
Geographic Coverage with `targetCount = 2` returns the best record of each
region in region-iteration order, which is first-occurrence order of the
candidate list: `[500 (North), 550 (South)]`. -/
theorem claim8_example_scenario_amended :
    (StrategyEngine.revenueMaximizationSelection exampleStores ⟨3⟩
          ⟨.revenueFocus, [], [], []⟩).map (fun s => s.prodSelect) = [550, 500, 450] ∧
      (StrategyEngine.geographicDistributionSelection exampleStores ⟨2⟩
          ⟨.geographicCoverage, [], [], []⟩).map
        (fun s => (s.fieldSalesRegio, s.prodSelect)) =
          [("North", 500), ("South", 550)] := by
  refine ⟨by decide, by decide⟩

/-- C10: for every `SelectionResult` produced by `selectStores`, the
performance tier counts partition the selection exactly:
`high + medium + low = statistics.totalStores` and `statistics.totalStores`
is the number of selected records (with revenues sorted descending, the
66th-percentile threshold is at most the 33rd-percentile threshold, so the
three predicates are exhaustive and mutually exclusive). -/
theorem claim10_tier_partition (stores : List StoreData) (strategy : SelectionStrategy)
    (targetConfig : TargetConfig) (filteredStores : Option (List StoreData))
    (strategyConfig : Option StrategyConfiguration) :
    (StrategyEngine.selectStores stores strategy targetConfig filteredStores
          strategyConfig).performanceDistribution.high +
        (StrategyEngine.selectStores stores strategy targetConfig filteredStores
          strategyConfig).performanceDistribution.medium +
        (StrategyEngine.selectStores stores strategy targetConfig filteredStores
          strategyConfig).performanceDistribution.low =
      (StrategyEngine.selectStores stores strategy targetConfig filteredStores
        strategyConfig).statistics.totalStores ∧
      (StrategyEngine.selectStores stores strategy targetConfig filteredStores
          strategyConfig).statistics.totalStores =
        (StrategyEngine.selectStores stores strategy targetConfig filteredStores
          strategyConfig).selectedStores.length := by
  simp only [StrategyEngine.selectStores]
  by_cases h : (filteredStores.getD stores).length = 0
  · rw [if_pos h]
    exact ⟨rfl, rfl⟩
  · rw [if_neg h]
    exact generateResult_partition _ _

end StoreList
